import Mathlib

/-!
# Story graph engine (`grafo.cpp`): model and verified properties

A shallow embedding of the narrative graph of `grafo.cpp`:

* `SceneNode`, `StoryGraph` and the accessors of the class;
* `validate_graph` with its two passes (edge targets, three-colour DFS);
* the session loop `RunGameDemo`, driven by an abstract choice provider.

`std::map<std::string, SceneNode>` is an association list kept in strictly
increasing key order (`mapInsert` is `operator[]` assignment, `mapFind` is
`find`).  `std::cerr` is a list of diagnostics in emission order.  Recursion
and the `while` loop carry a fuel argument.
-/

namespace StoryEngine

/-! ## Data model -/

/-- A scene: `id`, `text` and the ordered `options` (visible text, target id). -/
structure SceneNode where
  id : String
  text : String
  options : List (String × String)
deriving DecidableEq, Repr

namespace SceneNode

/-- The constructor `SceneNode(node_id, node_text)`: a node without options. -/
def mk2 (node_id node_text : String) : SceneNode :=
  { id := node_id, text := node_text, options := [] }

/-- The method `add_option`: `options.push_back(make_pair(option_text, target_id))`. -/
def add_option (n : SceneNode) (option_text target_id : String) : SceneNode :=
  { n with options := n.options ++ [(option_text, target_id)] }

/-- The method `is_ending`: `options.empty()`. -/
def is_ending (n : SceneNode) : Bool :=
  n.options.isEmpty

end SceneNode

/-- The key order of the map, `std::less<std::string>`: lexicographic
comparison of the two character sequences. -/
def keyLt (a b : String) : Prop :=
  a.data < b.data

instance keyLt_decidable (a b : String) : Decidable (keyLt a b) :=
  inferInstanceAs (Decidable (a.data < b.data))

/-- The lookup `nodes.find(id)` on the ordered map: the value stored under `id`,
if any. -/
def mapFind (id : String) : List (String × SceneNode) → Option SceneNode
  | [] => none
  | (k, v) :: rest => if k = id then some v else mapFind id rest

/-- The assignment `nodes[k] = v` on the ordered map: replace the value under `k`, or insert
`(k, v)` at its place in key order. -/
def mapInsert (k : String) (v : SceneNode) :
    List (String × SceneNode) → List (String × SceneNode)
  | [] => [(k, v)]
  | (k', v') :: rest =>
    if keyLt k k' then (k, v) :: (k', v') :: rest
    else if k = k' then (k, v) :: rest
    else (k', v') :: mapInsert k v rest

/-- The class `StoryGraph`: the node map and the start id. -/
structure StoryGraph where
  nodes : List (String × SceneNode)
  start_node_id : String
deriving DecidableEq, Repr

/-- What the program writes to `std::cerr`. -/
inductive Diag where
  /-- The line `[WARN] add_node: id duplicado: <id>` -/
  | duplicate (id : String)
  /-- The line `[ERROR] Nodo '<src>' apunta a ID inexistente: <tgt>` -/
  | dangling (src tgt : String)
  /-- The line `[ERROR] Ciclo detectado: <src> -> <tgt>` -/
  | cycle (src tgt : String)
deriving DecidableEq, Repr

namespace StoryGraph

/-- The constructor `StoryGraph()`: no nodes, start id `"START"`. -/
def empty : StoryGraph :=
  { nodes := [], start_node_id := "START" }

/-- The method `get_node_ptr`: the node stored under `id`, `none` for `nullptr`. -/
def get_node_ptr (g : StoryGraph) (id : String) : Option SceneNode :=
  mapFind id g.nodes

/-- The method `node_exists`: `nodes.find(id) != nodes.end()`. -/
def node_exists (g : StoryGraph) (id : String) : Bool :=
  (mapFind id g.nodes).isSome

/-- The method `add_node`: warn when the id is already a key, then `nodes[node.id] = node`.
Returns the new graph and what was written to `std::cerr`. -/
def add_node (g : StoryGraph) (node : SceneNode) : StoryGraph × List Diag :=
  let warn := if (mapFind node.id g.nodes).isSome then [Diag.duplicate node.id] else []
  ({ g with nodes := mapInsert node.id node g.nodes }, warn)

/-- The method `set_start_node`. -/
def set_start_node (g : StoryGraph) (id : String) : StoryGraph :=
  { g with start_node_id := id }

/-- The method `get_start_node_id`. -/
def get_start_node_id (g : StoryGraph) : String :=
  g.start_node_id

/-- The method `get_node_count`: `nodes.size()`. -/
def get_node_count (g : StoryGraph) : Nat :=
  g.nodes.length

/-- The method `get_all_nodes`. -/
def get_all_nodes (g : StoryGraph) : List (String × SceneNode) :=
  g.nodes

end StoryGraph

/-! ## Validation -/

/-- The colour map of pass 2 (`std::map<std::string, int>` read with
`operator[]`): an id without an entry reads as `0`. -/
abbrev Color := String → Nat

/-- The assignment `color[id] = c`. -/
def setColor (color : Color) (id : String) (c : Nat) : Color :=
  fun x => if x = id then c else color x

/-- What the closure `dfs_cycle` captures by reference and writes: the colour
map and `std::cerr`. -/
structure DfsState where
  color : Color
  log : List Diag

/-- Pass 1, inner loop: the options of one node. -/
def check_options (g : StoryGraph) (node : SceneNode) :
    List (String × String) → Bool × List Diag → Bool × List Diag
  | [], acc => acc
  | opt :: rest, (ok, log) =>
    if !g.node_exists opt.2 then
      check_options g node rest (false, log ++ [Diag.dangling node.id opt.2])
    else
      check_options g node rest (ok, log)

/-- Pass 1, outer loop: every entry of the map in key order. -/
def check_edges (g : StoryGraph) :
    List (String × SceneNode) → Bool × List Diag → Bool × List Diag
  | [], acc => acc
  | kv :: rest, acc => check_edges g rest (check_options g kv.2 kv.2.options acc)

/-- The `for` loop of `dfs_cycle` over the options of node `id`; `recur` is the
recursive call `dfs_cycle(tgt)`. -/
def dfs_options (g : StoryGraph) (recur : String → DfsState → Option (Bool × DfsState))
    (id : String) : List (String × String) → DfsState → Option (Bool × DfsState)
  | [], st => some (false, st)
  | opt :: rest, st =>
    if !g.node_exists opt.2 then dfs_options g recur id rest st
    else if st.color opt.2 = 1 then
      some (true, { st with log := st.log ++ [Diag.cycle id opt.2] })
    else if st.color opt.2 = 0 then
      match recur opt.2 st with
      | none => none
      | some (true, st') => some (true, st')
      | some (false, st') => dfs_options g recur id rest st'
    else dfs_options g recur id rest st

/-- The closure `dfs_cycle`; `none` when the fuel runs out. -/
def dfs_cycle (g : StoryGraph) : Nat → String → DfsState → Option (Bool × DfsState)
  | 0, _, _ => none
  | fuel + 1, id, st =>
    let st1 : DfsState := { st with color := setColor st.color id 1 }
    match g.get_node_ptr id with
    | none => some (false, st1)
    | some node =>
      match dfs_options g (dfs_cycle g fuel) id node.options st1 with
      | none => none
      | some (true, st2) => some (true, st2)
      | some (false, st2) => some (false, { st2 with color := setColor st2.color id 2 })

/-- Pass 2, root loop: `if (color[kv.first] == 0) if (dfs_cycle(kv.first)) ok = false`. -/
def dfs_roots (g : StoryGraph) (fuel : Nat) :
    List (String × SceneNode) → Bool × DfsState → Option (Bool × DfsState)
  | [], acc => some acc
  | kv :: rest, (ok, st) =>
    if st.color kv.1 = 0 then
      match dfs_cycle g fuel kv.1 st with
      | none => none
      | some (true, st') => dfs_roots g fuel rest (false, st')
      | some (false, st') => dfs_roots g fuel rest (ok, st')
    else dfs_roots g fuel rest (ok, st)

/-- The colour map after `for (kv : nodes) color[kv.first] = 0`. -/
def initColor : Color :=
  fun _ => 0

/-- The function `validate_graph` with `fuel` for the recursion of `dfs_cycle`:
the returned boolean and what was written to `std::cerr`. -/
def validate_graph_fuel (fuel : Nat) (g : StoryGraph) : Option (Bool × List Diag) :=
  let p1 := check_edges g g.get_all_nodes (true, [])
  match dfs_roots g fuel g.get_all_nodes (p1.1, { color := initColor, log := p1.2 }) with
  | none => none
  | some (ok, st) => some (ok, st.log)

/-- The function `validate_graph`.  The recursion of `dfs_cycle` is at most
`get_node_count` deep, so this fuel never runs out and more fuel gives the
same result. -/
def validate_graph (g : StoryGraph) : Option (Bool × List Diag) :=
  validate_graph_fuel (g.get_node_count + 1) g

/-! ## Session -/

/-- How a run of `RunGameDemo` leaves its loop. -/
inductive SessionEnd where
  /-- reached a node without options -/
  | ended (id : String)
  /-- The line `[ERROR] Nodo '<id>' no encontrado.` was written -/
  | nodeNotFound (id : String)
  /-- The line `[ERROR] Opción inválida seleccionada.` was written at node `id` -/
  | invalidOption (id : String)
deriving DecidableEq, Repr

/-- What one run of `RunGameDemo` did: the nodes passed to `DisplayScene` in
order, the number of calls of `GetChoice`, the number of assignments to
`current_node_id` inside the loop, and how the loop was left. -/
structure SessionResult where
  rendered : List SceneNode
  asked : Nat
  transitions : Nat
  outcome : SessionEnd
deriving DecidableEq, Repr

/-- The choice provider `GetChoice`: the answer to the `k`-th call (counted
from 0) when called with `max_options`. -/
abbrev ChoiceProvider := Nat → Int → Int

/-- How one iteration of the `while` loop ends. -/
inductive StepResult where
  /-- the loop goes on with `current_node_id = id` -/
  | next (id : String)
  /-- The loop is left by `break` -/
  | stop (outcome : SessionEnd)
deriving DecidableEq, Repr

/-- The body of the `while` loop at `current_node_id = cur` after `asked`
calls of `GetChoice`: the node rendered (if any), the number of calls of
`GetChoice` afterwards, and how the iteration ends. -/
def session_step (g : StoryGraph) (provider : ChoiceProvider) (cur : String) (asked : Nat) :
    Option SceneNode × Nat × StepResult :=
  match g.get_node_ptr cur with
  | none => (none, asked, StepResult.stop (SessionEnd.nodeNotFound cur))
  | some node =>
    if node.is_ending then (some node, asked, StepResult.stop (SessionEnd.ended cur))
    else
      let choice := provider asked (node.options.length : Int)
      if h : 0 ≤ choice ∧ choice < (node.options.length : Int) then
        (some node, asked + 1,
          StepResult.next (node.options.get ⟨choice.toNat, by omega⟩).2)
      else (some node, asked + 1, StepResult.stop (SessionEnd.invalidOption cur))

/-- The `while (game_running)` loop from `current_node_id = cur`, after
`rendered`, `asked` and `transitions` so far; `none` when the fuel runs out. -/
def session_loop (g : StoryGraph) (provider : ChoiceProvider) :
    Nat → String → List SceneNode → Nat → Nat → Option SessionResult
  | 0, _, _, _, _ => none
  | fuel + 1, cur, rendered, asked, transitions =>
    match session_step g provider cur asked with
    | (shown, asked', StepResult.stop out) =>
      some { rendered := rendered ++ shown.toList, asked := asked',
             transitions := transitions, outcome := out }
    | (shown, asked', StepResult.next id) =>
      session_loop g provider fuel id (rendered ++ shown.toList) asked' (transitions + 1)

/-- The function `RunGameDemo` on graph `g`, with `fuel` loop iterations. -/
def RunGameDemo (fuel : Nat) (g : StoryGraph) (provider : ChoiceProvider) : Option SessionResult :=
  session_loop g provider fuel g.get_start_node_id [] 0 0

/-! ## Specification vocabulary -/

/-- The option-edge relation: `u` is a key of the node map and some option of
the node found under `u` has target id `v`. -/
def Edge (g : StoryGraph) (u v : String) : Prop :=
  ∃ node, g.get_node_ptr u = some node ∧ v ∈ node.options.map Prod.snd

/-- The option-edge relation contains a directed cycle. -/
def HasCycle (g : StoryGraph) : Prop :=
  ∃ x, Relation.TransGen (Edge g) x x

/-- The option-edge relation contains no directed cycle. -/
def Acyclic (g : StoryGraph) : Prop :=
  ∀ x, ¬ Relation.TransGen (Edge g) x x

/-- The edge `u -> v` lies on a directed cycle. -/
def OnCycle (g : StoryGraph) (u v : String) : Prop :=
  Edge g u v ∧ Relation.ReflTransGen (Edge g) v u

/-- Every option of every stored node targets a key of the node map. -/
def TargetsExist (g : StoryGraph) : Prop :=
  ∀ kv ∈ g.nodes, ∀ opt ∈ kv.2.options, g.node_exists opt.2 = true

/-- The dangling-edge entries of one node: one per option occurrence whose
target is not a key, in option order. -/
def danglingOfNode (g : StoryGraph) (node : SceneNode) : List Diag :=
  node.options.filterMap
    (fun opt => if g.node_exists opt.2 then none else some (Diag.dangling node.id opt.2))

/-- The dangling-edge entries of the graph, node by node in map order. -/
def danglingOf (g : StoryGraph) : List Diag :=
  g.nodes.flatMap (fun kv => danglingOfNode g kv.2)

/-- Is this diagnostic a dangling-edge message? -/
def Diag.isDangling : Diag → Bool
  | Diag.dangling _ _ => true
  | _ => false

/-- Is this diagnostic a cycle message? -/
def Diag.isCycle : Diag → Bool
  | Diag.cycle _ _ => true
  | _ => false

/-- A sequence of `add_node` calls; the warnings are dropped. -/
def add_nodes (g : StoryGraph) (l : List SceneNode) : StoryGraph :=
  l.foldl (fun acc n => (acc.add_node n).1) g

/-- A choice provider that keeps the contract of `GetChoice`: called with
`max_options > 0` it answers an index in `[0, max_options)`. -/
def InRange (provider : ChoiceProvider) : Prop :=
  ∀ k m, 0 < m → 0 ≤ provider k m ∧ provider k m < m

/-- Edges that pass 2 follows: option edges whose target is a key. -/
def LiveEdge (g : StoryGraph) (u v : String) : Prop :=
  Edge g u v ∧ g.node_exists v = true

/-- Number of map entries whose key is still white. -/
def whiteCount (g : StoryGraph) (c : Color) : Nat :=
  g.nodes.countP (fun kv => decide (c kv.1 = 0))

/-- The rendered node `b` is found under the target of an option of `a`. -/
def Follows (g : StoryGraph) (a b : SceneNode) : Prop :=
  ∃ opt ∈ a.options, g.get_node_ptr opt.2 = some b

/-- Colour invariant of pass 2: colours are 0, 1 or 2, and the black nodes
are closed under followed edges and carry no cycle. -/
structure ColInv (g : StoryGraph) (c : Color) : Prop where
  le2 : ∀ v, c v ≤ 2
  closed : ∀ u v, c u = 2 → LiveEdge g u v → c v = 2
  acyc : ∀ u, c u = 2 → ¬ Relation.TransGen (LiveEdge g) u u

/-- A call that returned `false` from state `st` to `st'`: nothing was
written, the grey nodes are the same, black nodes stay black. -/
structure Finished (st st' : DfsState) : Prop where
  log_eq : st'.log = st.log
  grey : ∀ v, st'.color v = 1 ↔ st.color v = 1
  black : ∀ v, st.color v = 2 → st'.color v = 2

/-- A call on `id` that returned `true` from state `st` to `st'`: one cycle
message `u -> v` was written, for a followed edge below `id` whose target was
grey on entry or lies between `id` and `u`; the nodes left grey were grey on
entry or lie between `id` and `u`. -/
def Found (g : StoryGraph) (id : String) (st st' : DfsState) : Prop :=
  ∃ u v, st'.log = st.log ++ [Diag.cycle u v] ∧ LiveEdge g u v ∧
    Relation.ReflTransGen (LiveEdge g) id u ∧
    (st.color v = 1 ∨
      (Relation.ReflTransGen (LiveEdge g) id v ∧ Relation.ReflTransGen (LiveEdge g) v u)) ∧
    (∀ x, st'.color x = 1 → st.color x = 1 ∨
      (Relation.ReflTransGen (LiveEdge g) id x ∧ Relation.ReflTransGen (LiveEdge g) x u))

/-- Postcondition of `dfs_cycle` on `id` from state `st`. -/
def DfsPost (g : StoryGraph) (id : String) (st : DfsState)
    (r : Option (Bool × DfsState)) : Prop :=
  ∃ b st', r = some (b, st') ∧ ColInv g st'.color ∧
    (∀ v, st'.color v = 0 → st.color v = 0) ∧ st'.color id ≠ 0 ∧
    (b = false → Finished st st' ∧ st'.color id = 2) ∧
    (b = true → Found g id st st')

/-- Postcondition of the option loop of `dfs_cycle` on `id` from state `st`. -/
def LoopPost (g : StoryGraph) (id : String) (opts : List (String × String)) (st : DfsState)
    (r : Option (Bool × DfsState)) : Prop :=
  ∃ b st', r = some (b, st') ∧ ColInv g st'.color ∧
    (∀ v, st'.color v = 0 → st.color v = 0) ∧
    (b = false → Finished st st' ∧
      ∀ opt ∈ opts, g.node_exists opt.2 = true → st'.color opt.2 = 2) ∧
    (b = true → Found g id st st')

/-- Every grey node reaches the source of a cycle message already written
whose edge closes a cycle of followed edges. -/
def GreyCovered (g : StoryGraph) (st : DfsState) : Prop :=
  ∀ x, st.color x = 1 →
    ∃ u v, Diag.cycle u v ∈ st.log ∧ Relation.ReflTransGen (LiveEdge g) x u ∧
      LiveEdge g u v ∧ Relation.ReflTransGen (LiveEdge g) v u

/-- What the root loop over `kvs` guarantees from `(ok, st)` to `(ok', st')`. -/
structure RootsPost (g : StoryGraph) (kvs : List (String × SceneNode))
    (ok : Bool) (st : DfsState) (ok' : Bool) (st' : DfsState) : Prop where
  inv : ColInv g st'.color
  white : ∀ v, st'.color v = 0 → st.color v = 0
  visited : ∀ kv ∈ kvs, st'.color kv.1 ≠ 0
  log : ∃ extra, st'.log = st.log ++ extra ∧ (∀ d ∈ extra, d.isCycle = true) ∧
    (extra = [] → ok' = ok) ∧ (extra ≠ [] → ok' = false)
  covered : GreyCovered g st → GreyCovered g st'
  first : (∀ v, st.color v ≠ 1) →
    (st'.log = st.log ∧ (∀ v, st'.color v ≠ 1) ∧ (∀ v, st.color v = 2 → st'.color v = 2)) ∨
    (∃ u v rest, st'.log = st.log ++ Diag.cycle u v :: rest ∧ LiveEdge g u v ∧
      Relation.ReflTransGen (LiveEdge g) v u)

/-- A closed walk `a, t₀, …, tₙ, a` along option edges, given by its nodes
`a :: t` in order. -/
def IsCycle (g : StoryGraph) : List String → Prop
  | [] => False
  | a :: t => List.Chain (Edge g) a (t ++ [a])

/-- The edges of the closed walk through the nodes `c`: each node to the next
one and the last node back to the first. -/
def cycleEdges : List String → List (String × String)
  | [] => []
  | a :: t => (a :: t).zip (t ++ [a])

/-! ## Example graphs -/

/-- Scenario A: `A -> [(go, B)]`, `B -> []`, start `A`. -/
def scenarioA : StoryGraph :=
  { nodes := [("A", ⟨"A", "a", [("go", "B")]⟩), ("B", ⟨"B", "b", []⟩)], start_node_id := "A" }

/-- Scenario B: `A -> [(x, B)]`, `B -> [(y, A)]`. -/
def scenarioB : StoryGraph :=
  { nodes := [("A", ⟨"A", "a", [("x", "B")]⟩), ("B", ⟨"B", "b", [("y", "A")]⟩)],
    start_node_id := "A" }

/-- Scenario C: `A -> [(x, MISSING)]`. -/
def scenarioC : StoryGraph :=
  { nodes := [("A", ⟨"A", "a", [("x", "MISSING")]⟩)], start_node_id := "A" }

/-- Two cycles through one DFS root: `A -> [(x, B), (y, A)]`, `B -> [(z, A)]`. -/
def twoCycles : StoryGraph :=
  { nodes := [("A", ⟨"A", "a", [("x", "B"), ("y", "A")]⟩), ("B", ⟨"B", "b", [("z", "A")]⟩)],
    start_node_id := "A" }

/-- The provider that always picks the first option. -/
def firstChoice : ChoiceProvider :=
  fun _ _ => 0

/-- Scenario D: the two nodes inserted under the id `A`. -/
def firstA : SceneNode :=
  SceneNode.mk2 "A" "first text"

/-- Scenario D, second insertion. -/
def secondA : SceneNode :=
  SceneNode.mk2 "A" "second text"

/-- The two nodes of scenario A. -/
def nodeA : SceneNode :=
  (SceneNode.mk2 "A" "a").add_option "go" "B"

/-- The terminal node of scenario A. -/
def nodeB : SceneNode :=
  SceneNode.mk2 "B" "b"

/-! ## Story assembly and the top-level run -/

/-- The default constructor `SceneNode()`: empty id, empty text, no options. -/
def SceneNode.mk0 : SceneNode :=
  { id := "", text := "", options := [] }

/-- One call `story_graph.add_node(node)` on the global graph, the warnings
appended to what `std::cerr` holds so far. -/
def add_logged (acc : StoryGraph × List Diag) (node : SceneNode) : StoryGraph × List Diag :=
  ((acc.1.add_node node).1, acc.2 ++ (acc.1.add_node node).2)

/-- The nodes that `BuildGraph` passes to `add_node`, in call order. -/
def storyNodes : List SceneNode :=
  [ ((SceneNode.mk2 "START"
        "Despiertas en un claro del bosque. La luz atraviesa las hojas y el viento es frío.").add_option
        "Seguir el sendero hacia el bosque" "BOSQUE_PROFUNDO").add_option
        "Caminar hacia el sonido del arroyo" "ARROYO",
    ((SceneNode.mk2 "BOSQUE_PROFUNDO"
        "El bosque se vuelve denso y silencioso. Frente a ti aparece una cabaña solitaria.").add_option
        "Entrar en la cabaña" "CABANA_INTERIOR").add_option
        "Rodearla por detrás" "CABANA_TRASERA",
    ((SceneNode.mk2 "ARROYO"
        "Un arroyo cristalino fluye suavemente. Al otro lado distingues una figura.").add_option
        "Llamar a la figura" "ENCUENTRO_ERMITANO").add_option
        "Cruzar el puente en silencio" "FINAL_ESCAPE",
    ((SceneNode.mk2 "CABANA_INTERIOR"
        "Dentro de la cabaña encuentras un viejo mapa sobre la mesa.").add_option
        "Tomar el mapa y seguir la ruta" "FINAL_MAPA").add_option
        "Buscar al ermitaño mencionado" "ENCUENTRO_ERMITANO",
    (((SceneNode.mk2 "CABANA_TRASERA"
        "Detrás de la cabaña hay una trampilla semienterrada y un jardín descuidado.").add_option
        "Forzar la trampilla" "FINAL_TESORO").add_option
        "Entrar a la cabaña por la puerta principal" "CABANA_INTERIOR").add_option
        "Seguir un sendero alternativo" "BOSQUE_CAMINO_ALTERNATIVO",
    ((SceneNode.mk2 "ENCUENTRO_ERMITANO"
        "Un anciano te observa en silencio. Extiende su mano con serenidad.").add_option
        "Tomar su mano" "FINAL_ERMITANO").add_option
        "Rechazar su ayuda" "FINAL_ALONE",
    SceneNode.mk2 "FINAL_ESCAPE"
      "Cruzas el puente y encuentras finalmente la salida del bosque.",
    SceneNode.mk2 "FINAL_MAPA"
      "Sigues la ruta del mapa hasta llegar a una pequeña aldea iluminada.",
    SceneNode.mk2 "FINAL_TESORO"
      "La trampilla oculta un cofre con un antiguo amuleto. Sientes un destello y despiertas en casa.",
    SceneNode.mk2 "FINAL_ERMITANO"
      "El ermitaño te guía a través del bosque hasta tu aldea.",
    SceneNode.mk2 "FINAL_ALONE"
      "Decides continuar solo. El bosque te envuelve en un profundo silencio.",
    SceneNode.mk2 "BOSQUE_CAMINO_ALTERNATIVO"
      "Sigues un sendero distinto que se aleja del bosque principal." ]

/-- The function `BuildGraph` on the global `story_graph`: twelve calls of
`add_node`, then `set_start_node("START")`.  Returns the graph and what was
written to `std::cerr`. -/
def BuildGraph (story_graph : StoryGraph) : StoryGraph × List Diag :=
  let built := storyNodes.foldl add_logged (story_graph, [])
  (built.1.set_start_node "START", built.2)

/-- The statistics printed by `ShowEndScreen`: the total number of nodes and
the number after `Finales disponibles:`. -/
def ShowEndScreen (story_graph : StoryGraph) : Nat × Nat :=
  (story_graph.get_node_count, 5)

/-- The number of stored nodes with `is_ending() = true`. -/
def endingCount (g : StoryGraph) : Nat :=
  (g.nodes.filter (fun kv => kv.2.is_ending)).length

/-- The `do ... while (play_again == 's' || play_again == 'S')` loop of `main`:
session `k` is run with `providers k`, the answer read afterwards is `again k`.
Collects the results of the sessions run; `none` when the fuel runs out. -/
def play_loop (g : StoryGraph) (providers : Nat → ChoiceProvider) (again : Nat → Char)
    (sessionFuel : Nat) : Nat → Nat → List SessionResult → Option (List SessionResult)
  | 0, _, _ => none
  | fuel + 1, k, done =>
    match RunGameDemo sessionFuel g (providers k) with
    | none => none
    | some r =>
      if again k = 's' ∨ again k = 'S' then
        play_loop g providers again sessionFuel fuel (k + 1) (done ++ [r])
      else some (done ++ [r])

/-- The function `main` from the call of `validate_graph` on: the exit code and
the sessions run. -/
def main_body (fuel : Nat) (story_graph : StoryGraph) (providers : Nat → ChoiceProvider)
    (again : Nat → Char) : Option (Int × List SessionResult) :=
  match validate_graph story_graph with
  | none => none
  | some (false, _) => some (2, [])
  | some (true, _) =>
    match play_loop story_graph providers again fuel fuel 0 [] with
    | none => none
    | some sessions => some (0, sessions)

/-- The function `main`: `BuildGraph()` on the fresh global graph, then the
rest of `main`. -/
def main (fuel : Nat) (providers : Nat → ChoiceProvider) (again : Nat → Char) :
    Option (Int × List SessionResult) :=
  main_body fuel (BuildGraph StoryGraph.empty).1 providers again

/-- The representation invariant of `std::map`: keys strictly increasing. -/
def KeysSorted (g : StoryGraph) : Prop :=
  g.nodes.Pairwise (fun a b => keyLt a.1 b.1)

/-- A mutating call on a `StoryGraph`. -/
inductive GraphOp where
  /-- The call `add_node(node)` -/
  | add (node : SceneNode)
  /-- The call `set_start_node(id)` -/
  | setStart (id : String)

/-- The graph after one call. -/
def GraphOp.apply (g : StoryGraph) : GraphOp → StoryGraph
  | GraphOp.add node => (g.add_node node).1
  | GraphOp.setStart id => g.set_start_node id

/-- The graph reached from `StoryGraph()` by a sequence of calls. -/
def runOps (ops : List GraphOp) : StoryGraph :=
  ops.foldl GraphOp.apply StoryGraph.empty

/-- A self-loop and an edge into it: `A -> [(x, A)]`, `B -> [(y, A)]`. -/
def staleGrey : StoryGraph :=
  { nodes := [("A", ⟨"A", "a", [("x", "A")]⟩), ("B", ⟨"B", "b", [("y", "A")]⟩)],
    start_node_id := "A" }

/-- Scenario A with a start id that is not a key. -/
def scenarioE : StoryGraph :=
  scenarioA.set_start_node "NOWHERE"

/-- Longest-path rank of the nodes of the built story. -/
def storyRank (id : String) : Nat :=
  if id = "START" then 5
  else if id = "BOSQUE_PROFUNDO" then 4
  else if id = "CABANA_TRASERA" then 3
  else if id = "CABANA_INTERIOR" then 2
  else if id = "ARROYO" then 2
  else if id = "ENCUENTRO_ERMITANO" then 1
  else 0

/-- The replay answers `n` (stop after the first session). -/
def noReplay : Nat → Char :=
  fun _ => 'n'

/-! ## The key order and the map -/

theorem keyLt_irrefl (a : String) : ¬ keyLt a a :=
  lt_irrefl a.data

theorem keyLt_trans {a b c : String} (h₁ : keyLt a b) (h₂ : keyLt b c) : keyLt a c :=
  lt_trans (a := a.data) h₁ h₂

theorem keyLt_asymm {a b : String} (h₁ : keyLt a b) : ¬ keyLt b a :=
  lt_asymm (a := a.data) h₁

theorem keyLt_trichotomy (a b : String) : keyLt a b ∨ a = b ∨ keyLt b a := by
  rcases lt_trichotomy a.data b.data with h | h | h
  · exact Or.inl h
  · exact Or.inr (Or.inl (String.ext h))
  · exact Or.inr (Or.inr h)

theorem mapFind_mapInsert_self (k : String) (v : SceneNode) (l : List (String × SceneNode)) :
    mapFind k (mapInsert k v l) = some v := by
  induction l with
  | nil => simp [mapInsert, mapFind]
  | cons hd tl ih =>
    obtain ⟨k', v'⟩ := hd
    unfold mapInsert
    split_ifs with h₁ h₂
    · simp [mapFind]
    · simp [mapFind]
    · have : ¬ k' = k := fun e => h₂ e.symm
      simp [mapFind, this, ih]

theorem mapFind_mapInsert_ne {k j : String} (hne : j ≠ k) (v : SceneNode)
    (l : List (String × SceneNode)) : mapFind j (mapInsert k v l) = mapFind j l := by
  have hkj : ¬ k = j := fun e => hne e.symm
  induction l with
  | nil => simp [mapInsert, mapFind, hkj]
  | cons hd tl ih =>
    obtain ⟨k', v'⟩ := hd
    unfold mapInsert
    split_ifs with h₁ h₂
    · simp [mapFind, hkj]
    · subst h₂
      simp [mapFind, hkj]
    · by_cases h₃ : k' = j
      · simp [mapFind, h₃]
      · simp [mapFind, h₃, ih]

theorem mapFind_isSome_iff (id : String) (l : List (String × SceneNode)) :
    (mapFind id l).isSome = true ↔ ∃ kv ∈ l, kv.1 = id := by
  induction l with
  | nil => simp [mapFind]
  | cons hd tl ih =>
    obtain ⟨k, v⟩ := hd
    by_cases h : k = id
    · simp [mapFind, h]
    · simp [mapFind, h, ih]

theorem mapFind_mem {id : String} {l : List (String × SceneNode)} {n : SceneNode}
    (h : mapFind id l = some n) : (id, n) ∈ l := by
  induction l with
  | nil => simp [mapFind] at h
  | cons hd tl ih =>
    obtain ⟨k, v⟩ := hd
    by_cases hk : k = id
    · simp [mapFind, hk] at h
      simp [hk, h]
    · simp [mapFind, hk] at h
      exact List.mem_cons_of_mem _ (ih h)

theorem node_exists_iff_get (g : StoryGraph) (id : String) :
    g.node_exists id = true ↔ ∃ n, g.get_node_ptr id = some n := by
  unfold StoryGraph.node_exists StoryGraph.get_node_ptr
  exact Option.isSome_iff_exists

/-! ## Pass 2: the colour invariant -/

theorem countP_lt_countP {α : Type} (p q : α → Bool) :
    ∀ (l : List α), (∀ x ∈ l, p x = true → q x = true) →
      (∃ x ∈ l, q x = true ∧ p x = false) → l.countP p < l.countP q := by
  intro l
  induction l with
  | nil => intro _ h; obtain ⟨x, hx, _⟩ := h; simp at hx
  | cons y tl ih =>
    intro hpq hex
    have hmono : tl.countP p ≤ tl.countP q :=
      List.countP_mono_left (fun x hx => hpq x (List.mem_cons_of_mem _ hx))
    have hy := hpq y (List.mem_cons_self _ _)
    obtain ⟨x, hx, hqx, hpx⟩ := hex
    rw [List.countP_cons, List.countP_cons]
    rcases List.mem_cons.mp hx with rfl | hx'
    · simp [hqx, hpx]; omega
    · have := ih (fun x hx => hpq x (List.mem_cons_of_mem _ hx)) ⟨x, hx', hqx, hpx⟩
      by_cases hp : p y = true
      · simp [hp, hy hp]; omega
      · by_cases hq : q y = true
        · simp [hp, hq]; omega
        · simp [hp, hq]; omega

theorem whiteCount_mono (g : StoryGraph) {c c' : Color}
    (h : ∀ v, c' v = 0 → c v = 0) : whiteCount g c' ≤ whiteCount g c := by
  unfold whiteCount
  apply List.countP_mono_left
  intro x _ hx
  simp only [decide_eq_true_eq] at hx ⊢
  exact h _ hx

theorem whiteCount_setGrey_lt (g : StoryGraph) {c : Color} {id : String}
    (hex : g.node_exists id = true) (hw : c id = 0) :
    whiteCount g (setColor c id 1) < whiteCount g c := by
  unfold whiteCount
  apply countP_lt_countP
  · intro x _ hx
    simp only [decide_eq_true_eq, setColor] at hx ⊢
    by_cases hxi : x.1 = id
    · simp [hxi] at hx
    · simpa [hxi] using hx
  · obtain ⟨kv, hkv, hk⟩ := (mapFind_isSome_iff id g.nodes).mp hex
    exact ⟨kv, hkv, by simp [hk, hw], by simp [setColor, hk]⟩

theorem colInv_init (g : StoryGraph) : ColInv g initColor :=
  { le2 := fun _ => by simp [initColor]
    closed := fun _ _ h => by simp [initColor] at h
    acyc := fun _ h => by simp [initColor] at h }

theorem colInv_reach {g : StoryGraph} {c : Color} (hc : ColInv g c) {u w : String}
    (hu : c u = 2) (h : Relation.ReflTransGen (LiveEdge g) u w) : c w = 2 := by
  induction h with
  | refl => exact hu
  | tail _ hbc ih => exact hc.closed _ _ ih hbc

theorem colInv_setGrey {g : StoryGraph} {c : Color} (hc : ColInv g c) {id : String}
    (hw : c id = 0) : ColInv g (setColor c id 1) := by
  have hblack : ∀ v, setColor c id 1 v = 2 ↔ c v = 2 := by
    intro v
    unfold setColor
    by_cases hv : v = id
    · subst hv; simp [hw]
    · simp [hv]
  refine ⟨?_, ?_, ?_⟩
  · intro v
    unfold setColor
    split_ifs
    · omega
    · exact hc.le2 v
  · intro u v hu huv
    exact (hblack v).mpr (hc.closed u v ((hblack u).mp hu) huv)
  · intro u hu
    exact hc.acyc u ((hblack u).mp hu)

theorem colInv_setBlack {g : StoryGraph} {c : Color} (hc : ColInv g c) {id : String}
    (hg : c id = 1) (hsucc : ∀ v, LiveEdge g id v → c v = 2) :
    ColInv g (setColor c id 2) := by
  have hblack : ∀ v, setColor c id 2 v = 2 ↔ (v = id ∨ c v = 2) := by
    intro v
    unfold setColor
    by_cases hv : v = id
    · simp [hv]
    · simp [hv]
  refine ⟨?_, ?_, ?_⟩
  · intro v
    unfold setColor
    split_ifs
    · omega
    · exact hc.le2 v
  · intro u v hu huv
    rcases (hblack u).mp hu with rfl | hu'
    · exact (hblack v).mpr (Or.inr (hsucc v huv))
    · exact (hblack v).mpr (Or.inr (hc.closed u v hu' huv))
  · intro u hu hcyc
    rcases (hblack u).mp hu with rfl | hu'
    · obtain ⟨b, hub, hbu⟩ := Relation.TransGen.head'_iff.mp hcyc
      have := colInv_reach hc (hsucc b hub) hbu
      omega
    · exact hc.acyc u hu' hcyc

theorem Finished.refl (st : DfsState) : Finished st st :=
  ⟨rfl, fun _ => Iff.rfl, fun _ h => h⟩

theorem Finished.trans {a b c : DfsState} (h₁ : Finished a b) (h₂ : Finished b c) :
    Finished a c :=
  ⟨h₂.log_eq.trans h₁.log_eq, fun v => (h₂.grey v).trans (h₁.grey v),
    fun v h => h₂.black v (h₁.black v h)⟩

theorem dfs_options_spec (g : StoryGraph) (fuel : Nat) (id : String)
    (hrec : ∀ tgt st, ColInv g st.color → whiteCount g st.color < fuel →
      g.node_exists tgt = true → st.color tgt = 0 →
      DfsPost g tgt st (dfs_cycle g fuel tgt st)) :
    ∀ (opts : List (String × String)) (st : DfsState), ColInv g st.color →
      whiteCount g st.color < fuel →
      (∀ opt ∈ opts, g.node_exists opt.2 = true → LiveEdge g id opt.2) →
      LoopPost g id opts st (dfs_options g (dfs_cycle g fuel) id opts st) := by
  intro opts
  induction opts with
  | nil =>
    intro st hinv _ _
    exact ⟨false, st, rfl, hinv, fun _ h => h,
      fun _ => ⟨Finished.refl st, fun _ h => by simp at h⟩, fun h => by simp at h⟩
  | cons opt rest ih =>
    intro st hinv hfuel hedge
    have hedge' : ∀ o ∈ rest, g.node_exists o.2 = true → LiveEdge g id o.2 :=
      fun o ho => hedge o (List.mem_cons_of_mem _ ho)
    unfold dfs_options
    by_cases hex : g.node_exists opt.2 = true
    · have hlive := hedge opt (List.mem_cons_self _ _) hex
      simp only [hex, Bool.not_true, Bool.false_eq_true, if_false]
      by_cases h1 : st.color opt.2 = 1
      · simp only [h1, if_true]
        refine ⟨true, _, rfl, hinv, fun _ h => h, fun h => by simp at h, fun _ => ?_⟩
        exact ⟨id, opt.2, rfl, hlive, Relation.ReflTransGen.refl, Or.inl h1,
          fun x hx => Or.inl hx⟩
      · simp only [h1, if_false]
        by_cases h0 : st.color opt.2 = 0
        · simp only [h0, if_true]
          obtain ⟨b, st', hr, hinv', hwhite', _, hfalse, htrue⟩ :=
            hrec opt.2 st hinv hfuel hex h0
          rw [hr]
          cases b with
          | true =>
            obtain ⟨u, v, hlog, huv, hreach, hv, hgrey⟩ := htrue rfl
            refine ⟨true, st', rfl, hinv', hwhite', fun h => by simp at h, fun _ => ?_⟩
            refine ⟨u, v, hlog, huv, Relation.ReflTransGen.head hlive hreach, ?_, ?_⟩
            · rcases hv with hv | ⟨hv₁, hv₂⟩
              · exact Or.inl hv
              · exact Or.inr ⟨Relation.ReflTransGen.head hlive hv₁, hv₂⟩
            · intro x hx
              rcases hgrey x hx with hx' | ⟨hx₁, hx₂⟩
              · exact Or.inl hx'
              · exact Or.inr ⟨Relation.ReflTransGen.head hlive hx₁, hx₂⟩
          | false =>
            obtain ⟨hfin, hblack⟩ := hfalse rfl
            have hfuel' : whiteCount g st'.color < fuel :=
              lt_of_le_of_lt (whiteCount_mono g hwhite') hfuel
            obtain ⟨b₂, st₂, hr₂, hinv₂, hwhite₂, hfalse₂, htrue₂⟩ := ih st' hinv' hfuel' hedge'
            simp only [hr₂]
            refine ⟨b₂, st₂, rfl, hinv₂, fun v h => hwhite' v (hwhite₂ v h), ?_, ?_⟩
            · intro hb
              obtain ⟨hfin₂, hrest⟩ := hfalse₂ hb
              refine ⟨hfin.trans hfin₂, ?_⟩
              intro o ho hoex
              rcases List.mem_cons.mp ho with rfl | ho'
              · exact hfin₂.black _ hblack
              · exact hrest o ho' hoex
            · intro hb
              obtain ⟨u, v, hlog, huv, hreach, hv, hgrey⟩ := htrue₂ hb
              refine ⟨u, v, by rw [hlog, hfin.log_eq], huv, hreach, ?_, ?_⟩
              · rcases hv with hv | hv
                · exact Or.inl ((hfin.grey v).mp hv)
                · exact Or.inr hv
              · intro x hx
                rcases hgrey x hx with hx' | hx'
                · exact Or.inl ((hfin.grey x).mp hx')
                · exact Or.inr hx'
        · simp only [h0, if_false]
          have h2 : st.color opt.2 = 2 := by
            have := hinv.le2 opt.2
            omega
          obtain ⟨b₂, st₂, hr₂, hinv₂, hwhite₂, hfalse₂, htrue₂⟩ := ih st hinv hfuel hedge'
          refine ⟨b₂, st₂, hr₂, hinv₂, hwhite₂, ?_, htrue₂⟩
          intro hb
          obtain ⟨hfin₂, hrest⟩ := hfalse₂ hb
          refine ⟨hfin₂, ?_⟩
          intro o ho hoex
          rcases List.mem_cons.mp ho with rfl | ho'
          · exact hfin₂.black _ h2
          · exact hrest o ho' hoex
    · simp only [hex, Bool.not_false, if_true]
      obtain ⟨b₂, st₂, hr₂, hinv₂, hwhite₂, hfalse₂, htrue₂⟩ := ih st hinv hfuel hedge'
      refine ⟨b₂, st₂, hr₂, hinv₂, hwhite₂, ?_, htrue₂⟩
      intro hb
      obtain ⟨hfin₂, hrest⟩ := hfalse₂ hb
      refine ⟨hfin₂, ?_⟩
      intro o ho hoex
      rcases List.mem_cons.mp ho with rfl | ho'
      · exact absurd hoex hex
      · exact hrest o ho' hoex

theorem liveEdge_of_option {g : StoryGraph} {id : String} {node : SceneNode}
    (hn : g.get_node_ptr id = some node) :
    ∀ opt ∈ node.options, g.node_exists opt.2 = true → LiveEdge g id opt.2 :=
  fun _ ho hex => ⟨⟨node, hn, List.mem_map_of_mem _ ho⟩, hex⟩

theorem option_of_liveEdge {g : StoryGraph} {id v : String} {node : SceneNode}
    (hn : g.get_node_ptr id = some node) (h : LiveEdge g id v) :
    ∃ opt ∈ node.options, opt.2 = v ∧ g.node_exists opt.2 = true := by
  obtain ⟨⟨node', hn', hv⟩, hex⟩ := h
  rw [hn] at hn'
  cases hn'
  obtain ⟨opt, ho, rfl⟩ := List.mem_map.mp hv
  exact ⟨opt, ho, rfl, hex⟩

theorem dfs_cycle_spec (g : StoryGraph) :
    ∀ (fuel : Nat) (id : String) (st : DfsState), ColInv g st.color →
      whiteCount g st.color < fuel → g.node_exists id = true → st.color id = 0 →
      DfsPost g id st (dfs_cycle g fuel id st) := by
  intro fuel
  induction fuel with
  | zero => intro id st _ h; omega
  | succ fuel ih =>
    intro id st hinv hfuel hex hw
    obtain ⟨node, hn⟩ := (node_exists_iff_get g id).mp hex
    have hinv1 : ColInv g (setColor st.color id 1) := colInv_setGrey hinv hw
    have hfuel1 : whiteCount g (setColor st.color id 1) < fuel := by
      have := whiteCount_setGrey_lt g hex hw
      omega
    have hgrey1 : ∀ v, setColor st.color id 1 v = 1 ↔ (v = id ∨ st.color v = 1) := by
      intro v
      unfold setColor
      by_cases hv : v = id
      · simp [hv]
      · simp [hv]
    have hwhite1 : ∀ v, setColor st.color id 1 v = 0 → st.color v = 0 := by
      intro v
      unfold setColor
      by_cases hv : v = id
      · simp [hv]
      · simp [hv]
    obtain ⟨b, st₂, hr, hinv₂, hwhite₂, hfalse, htrue⟩ :=
      dfs_options_spec g fuel id ih node.options
        { st with color := setColor st.color id 1 } hinv1 hfuel1 (liveEdge_of_option hn)
    unfold dfs_cycle
    simp only [hn, hr]
    cases b with
    | true =>
      obtain ⟨u, v, hlog, huv, hreach, hv, hgrey⟩ := htrue rfl
      have hid : st₂.color id ≠ 0 := by
        intro h0
        have := hwhite₂ id h0
        simp [setColor] at this
      refine ⟨true, st₂, rfl, hinv₂, fun v h => hwhite1 v (hwhite₂ v h), hid,
        fun h => by simp at h, fun _ => ?_⟩
      refine ⟨u, v, hlog, huv, hreach, ?_, ?_⟩
      · rcases hv with hv | hv
        · rcases (hgrey1 v).mp hv with rfl | hv'
          · exact Or.inr ⟨Relation.ReflTransGen.refl, hreach⟩
          · exact Or.inl hv'
        · exact Or.inr hv
      · intro x hx
        rcases hgrey x hx with hx' | hx'
        · rcases (hgrey1 x).mp hx' with rfl | hx₃
          · exact Or.inr ⟨Relation.ReflTransGen.refl, hreach⟩
          · exact Or.inl hx₃
        · exact Or.inr hx'
    | false =>
      obtain ⟨hfin, hsucc⟩ := hfalse rfl
      have hg₂ : st₂.color id = 1 := (hfin.grey id).mpr ((hgrey1 id).mpr (Or.inl rfl))
      have hinv₃ : ColInv g (setColor st₂.color id 2) := by
        apply colInv_setBlack hinv₂ hg₂
        intro v hv
        obtain ⟨opt, ho, rfl, hoex⟩ := option_of_liveEdge hn hv
        exact hsucc opt ho hoex
      refine ⟨false, _, rfl, hinv₃, ?_, by simp [setColor],
        fun _ => ⟨⟨hfin.log_eq, ?_, ?_⟩, ?_⟩, fun h => by simp at h⟩
      · intro v hv
        apply hwhite1 v
        apply hwhite₂ v
        revert hv
        show setColor st₂.color id 2 v = 0 → st₂.color v = 0
        unfold setColor
        by_cases hvi : v = id
        · simp [hvi]
        · simp [hvi]
      · intro v
        show setColor st₂.color id 2 v = 1 ↔ st.color v = 1
        by_cases hvi : v = id
        · subst hvi
          simp [setColor, hw]
        · have h₁ : setColor st₂.color id 2 v = st₂.color v := by simp [setColor, hvi]
          rw [h₁, hfin.grey v]
          show setColor st.color id 1 v = 1 ↔ st.color v = 1
          simp [setColor, hvi]
      · intro v hv
        show setColor st₂.color id 2 v = 2
        by_cases hvi : v = id
        · simp [setColor, hvi]
        · have h₁ : setColor st₂.color id 2 v = st₂.color v := by simp [setColor, hvi]
          rw [h₁]
          apply hfin.black v
          show setColor st.color id 1 v = 2
          simpa [setColor, hvi] using hv
      · show setColor st₂.color id 2 id = 2
        simp [setColor]

theorem dfs_roots_spec (g : StoryGraph) (fuel : Nat) :
    ∀ (kvs : List (String × SceneNode)) (ok : Bool) (st : DfsState), ColInv g st.color →
      whiteCount g st.color < fuel → (∀ kv ∈ kvs, g.node_exists kv.1 = true) →
      ∃ ok' st', dfs_roots g fuel kvs (ok, st) = some (ok', st') ∧
        RootsPost g kvs ok st ok' st' := by
  intro kvs
  induction kvs with
  | nil =>
    intro ok st hinv _ _
    refine ⟨ok, st, rfl, hinv, fun _ h => h, fun _ h => by simp at h,
      ⟨[], by simp, by simp, fun _ => rfl, fun h => absurd rfl h⟩, fun h => h,
      fun hg => Or.inl ⟨rfl, hg, fun _ h => h⟩⟩
  | cons kv rest ih =>
    intro ok st hinv hfuel hkeys
    have hkeys' : ∀ k ∈ rest, g.node_exists k.1 = true :=
      fun k hk => hkeys k (List.mem_cons_of_mem _ hk)
    unfold dfs_roots
    by_cases hw : st.color kv.1 = 0
    · simp only [hw, if_true]
      obtain ⟨b, st₁, hr, hinv₁, hwhite₁, hhead, hfalse, htrue⟩ :=
        dfs_cycle_spec g fuel kv.1 st hinv hfuel (hkeys kv (List.mem_cons_self _ _)) hw
      have hfuel₁ : whiteCount g st₁.color < fuel :=
        lt_of_le_of_lt (whiteCount_mono g hwhite₁) hfuel
      rw [hr]
      cases b with
      | true =>
        obtain ⟨u, v, hlog, huv, hreach, hv, hgrey⟩ := htrue rfl
        obtain ⟨ok', st', hr', hpost⟩ := ih false st₁ hinv₁ hfuel₁ hkeys'
        obtain ⟨extra, hextra, hcyc, hnil, hcons⟩ := hpost.log
        have hok' : ok' = false := by
          by_cases he : extra = []
          · exact hnil he
          · exact hcons he
        refine ⟨ok', st', hr', hpost.inv, fun x h => hwhite₁ x (hpost.white x h), ?_,
          ⟨Diag.cycle u v :: extra, by rw [hextra, hlog]; simp, ?_, by simp, fun _ => hok'⟩,
          ?_, ?_⟩
        · intro k hk
          rcases List.mem_cons.mp hk with rfl | hk'
          · exact fun h => hhead (hpost.white _ h)
          · exact hpost.visited k hk'
        · intro d hd
          rcases List.mem_cons.mp hd with rfl | hd'
          · rfl
          · exact hcyc d hd'
        · intro hcov
          apply hpost.covered
          intro x hx
          rcases hgrey x hx with hx' | ⟨_, hx₂⟩
          · obtain ⟨a, b, hab, hxa⟩ := hcov x hx'
            exact ⟨a, b, by rw [hlog]; exact List.mem_append_left _ hab, hxa⟩
          · rcases hv with hv | ⟨_, hv₂⟩
            · obtain ⟨a, b, hab, hva, hrest⟩ := hcov v hv
              exact ⟨a, b, by rw [hlog]; exact List.mem_append_left _ hab,
                (Relation.ReflTransGen.tail hx₂ huv).trans hva, hrest⟩
            · exact ⟨u, v, by rw [hlog]; simp, hx₂, huv, hv₂⟩
        · intro hg
          right
          refine ⟨u, v, extra, by rw [hextra, hlog]; simp, huv, ?_⟩
          rcases hv with hv | ⟨_, hv₂⟩
          · exact absurd hv (hg v)
          · exact hv₂
      | false =>
        obtain ⟨hfin, hblack⟩ := hfalse rfl
        obtain ⟨ok', st', hr', hpost⟩ := ih ok st₁ hinv₁ hfuel₁ hkeys'
        obtain ⟨extra, hextra, hcyc, hnil, hcons⟩ := hpost.log
        refine ⟨ok', st', hr', hpost.inv, fun x h => hwhite₁ x (hpost.white x h), ?_,
          ⟨extra, by rw [hextra, hfin.log_eq], hcyc, hnil, hcons⟩, ?_, ?_⟩
        · intro k hk
          rcases List.mem_cons.mp hk with rfl | hk'
          · exact fun h => hhead (hpost.white _ h)
          · exact hpost.visited k hk'
        · intro hcov
          apply hpost.covered
          intro x hx
          obtain ⟨a, b, hab, hxa⟩ := hcov x ((hfin.grey x).mp hx)
          exact ⟨a, b, by rw [hfin.log_eq]; exact hab, hxa⟩
        · intro hg
          have hg₁ : ∀ v, st₁.color v ≠ 1 := fun v h => hg v ((hfin.grey v).mp h)
          rcases hpost.first hg₁ with ⟨hl, hg', hb⟩ | ⟨u, v, r, hl, huv, hvu⟩
          · exact Or.inl ⟨by rw [hl, hfin.log_eq], hg', fun v h => hb v (hfin.black v h)⟩
          · exact Or.inr ⟨u, v, r, by rw [hl, hfin.log_eq], huv, hvu⟩
    · simp only [hw, if_false]
      obtain ⟨ok', st', hr', hpost⟩ := ih ok st hinv hfuel hkeys'
      refine ⟨ok', st', hr', hpost.inv, hpost.white, ?_, hpost.log, hpost.covered, hpost.first⟩
      intro k hk
      rcases List.mem_cons.mp hk with rfl | hk'
      · exact fun h => hw (hpost.white _ h)
      · exact hpost.visited k hk'

/-! ## Pass 1 and the whole of `validate_graph` -/

theorem isEmpty_append_eq {α : Type} (a b : List α) :
    (a ++ b).isEmpty = (a.isEmpty && b.isEmpty) := by
  cases a <;> simp

theorem check_options_spec (g : StoryGraph) (node : SceneNode) :
    ∀ (opts : List (String × String)) (ok : Bool) (log : List Diag),
      check_options g node opts (ok, log) =
        (ok && (opts.filterMap (fun opt =>
            if g.node_exists opt.2 then none else some (Diag.dangling node.id opt.2))).isEmpty,
          log ++ opts.filterMap (fun opt =>
            if g.node_exists opt.2 then none else some (Diag.dangling node.id opt.2))) := by
  intro opts
  induction opts with
  | nil => intro ok log; simp [check_options]
  | cons opt rest ih =>
    intro ok log
    unfold check_options
    by_cases hex : g.node_exists opt.2 = true
    · simp [hex, ih, List.filterMap_cons]
    · simp [hex, ih, List.filterMap_cons]

theorem check_edges_spec (g : StoryGraph) :
    ∀ (kvs : List (String × SceneNode)) (ok : Bool) (log : List Diag),
      check_edges g kvs (ok, log) =
        (ok && (kvs.flatMap (fun kv => danglingOfNode g kv.2)).isEmpty,
          log ++ kvs.flatMap (fun kv => danglingOfNode g kv.2)) := by
  intro kvs
  induction kvs with
  | nil => intro ok log; simp [check_edges]
  | cons kv rest ih =>
    intro ok log
    unfold check_edges
    rw [check_options_spec, ih]
    simp only [List.flatMap_cons, danglingOfNode, List.append_assoc, isEmpty_append_eq,
      Bool.and_assoc]

theorem key_exists (g : StoryGraph) : ∀ kv ∈ g.nodes, g.node_exists kv.1 = true :=
  fun kv hkv => (mapFind_isSome_iff kv.1 g.nodes).mpr ⟨kv, hkv, rfl⟩

theorem whiteCount_init (g : StoryGraph) : whiteCount g initColor = g.get_node_count := by
  unfold whiteCount StoryGraph.get_node_count
  rw [List.countP_eq_length]
  intro kv _
  simp [initColor]

theorem validate_graph_fuel_spec (g : StoryGraph) (fuel : Nat) (h : g.get_node_count < fuel) :
    ∃ ok st', validate_graph_fuel fuel g = some (ok, st'.log) ∧
      RootsPost g g.nodes (danglingOf g).isEmpty
        { color := initColor, log := danglingOf g } ok st' := by
  have hfuel : whiteCount g initColor < fuel := by rw [whiteCount_init]; exact h
  obtain ⟨ok, st', hr, hpost⟩ :=
    dfs_roots_spec g fuel g.nodes (danglingOf g).isEmpty
      { color := initColor, log := danglingOf g } (colInv_init g) hfuel (key_exists g)
  refine ⟨ok, st', ?_, hpost⟩
  unfold validate_graph_fuel StoryGraph.get_all_nodes
  rw [check_edges_spec]
  simp only [Bool.true_and, List.nil_append]
  unfold danglingOf at hr
  rw [hr]

theorem edge_source_exists {g : StoryGraph} {u v : String} (h : Edge g u v) :
    g.node_exists u = true := by
  obtain ⟨n, hn, _⟩ := h
  exact (node_exists_iff_get g u).mpr ⟨n, hn⟩

theorem transGen_live_of_edge {g : StoryGraph} {x y : String}
    (h : Relation.TransGen (Edge g) x y) (hy : g.node_exists y = true) :
    Relation.TransGen (LiveEdge g) x y := by
  induction h with
  | single hxy => exact Relation.TransGen.single ⟨hxy, hy⟩
  | tail _ hbc ih => exact Relation.TransGen.tail (ih (edge_source_exists hbc)) ⟨hbc, hy⟩

theorem cycle_live_of_edge {g : StoryGraph} {x : String}
    (h : Relation.TransGen (Edge g) x x) :
    g.node_exists x = true ∧ Relation.TransGen (LiveEdge g) x x := by
  have hx : g.node_exists x = true := by
    obtain ⟨b, hxb, _⟩ := Relation.TransGen.head'_iff.mp h
    exact edge_source_exists hxb
  exact ⟨hx, transGen_live_of_edge h hx⟩

theorem reach_edge_of_live {g : StoryGraph} {x y : String}
    (h : Relation.ReflTransGen (LiveEdge g) x y) : Relation.ReflTransGen (Edge g) x y :=
  Relation.ReflTransGen.mono (fun _ _ hab => hab.1) h

theorem onCycle_of_live {g : StoryGraph} {u v : String} (huv : LiveEdge g u v)
    (hvu : Relation.ReflTransGen (LiveEdge g) v u) : OnCycle g u v :=
  ⟨huv.1, reach_edge_of_live hvu⟩

theorem onCycle_cycle {g : StoryGraph} {u v : String} (h : OnCycle g u v) :
    Relation.TransGen (Edge g) u u :=
  Relation.TransGen.head'_iff.mpr ⟨v, h.1, h.2⟩

theorem danglingOf_nil_of_targetsExist {g : StoryGraph} (h : TargetsExist g) :
    danglingOf g = [] := by
  unfold danglingOf
  rw [List.flatMap_eq_nil_iff]
  intro kv hkv
  unfold danglingOfNode
  rw [List.filterMap_eq_nil_iff]
  intro opt hopt
  simp [h kv hkv opt hopt]

theorem acyclic_of_rank (g : StoryGraph) (rank : String → Nat)
    (h : ∀ kv ∈ g.nodes, ∀ opt ∈ kv.2.options, rank opt.2 < rank kv.1) : Acyclic g := by
  have hedge : ∀ u v, Edge g u v → rank v < rank u := by
    intro u v ⟨node, hn, hv⟩
    obtain ⟨opt, ho, rfl⟩ := List.mem_map.mp hv
    exact h (u, node) (mapFind_mem hn) opt ho
  have hpath : ∀ u v, Relation.TransGen (Edge g) u v → rank v < rank u := by
    intro u v huv
    induction huv with
    | single hab => exact hedge _ _ hab
    | tail _ hbc ih => exact lt_trans (hedge _ _ hbc) ih
  intro x hx
  exact lt_irrefl _ (hpath x x hx)

theorem validate_graph_spec (g : StoryGraph) :
    ∃ ok st', validate_graph g = some (ok, st'.log) ∧
      RootsPost g g.nodes (danglingOf g).isEmpty
        { color := initColor, log := danglingOf g } ok st' :=
  validate_graph_fuel_spec g (g.get_node_count + 1) (Nat.lt_succ_self _)

theorem danglingOf_isDangling (g : StoryGraph) : ∀ d ∈ danglingOf g, d.isDangling = true := by
  intro d hd
  unfold danglingOf danglingOfNode at hd
  obtain ⟨kv, _, hd⟩ := List.mem_flatMap.mp hd
  obtain ⟨opt, _, ho⟩ := List.mem_filterMap.mp hd
  split_ifs at ho
  cases ho
  rfl

theorem cycle_mem_extra {g : StoryGraph} {extra : List Diag} {u v : String}
    (h : Diag.cycle u v ∈ danglingOf g ++ extra) : Diag.cycle u v ∈ extra := by
  rcases List.mem_append.mp h with h | h
  · have := danglingOf_isDangling g _ h
    simp [Diag.isDangling] at this
  · exact h

/-! ## Claims about `validate_graph` -/

/-- Claim C1. When every option target is a key of the node map and the option
edges form no directed cycle, `validate_graph` returns `true` and writes no
diagnostic at all. -/
theorem validate_graph_accepts_dag (g : StoryGraph) (ht : TargetsExist g) (ha : Acyclic g) :
    validate_graph g = some (true, []) := by
  obtain ⟨ok, st', hr, hpost⟩ := validate_graph_spec g
  have hd := danglingOf_nil_of_targetsExist ht
  rw [hd] at hpost
  obtain ⟨extra, hextra, _, hnil, _⟩ := hpost.log
  rcases hpost.first (fun v => by simp [initColor]) with ⟨hl, _, _⟩ | ⟨u, v, r, _, huv, hvu⟩
  · have he : extra = [] := by
      rw [hl] at hextra
      simpa using hextra
    have hok : ok = true := by simpa using hnil he
    have hlog : st'.log = [] := hl
    rw [hr, hok, hlog]
  · exact absurd (onCycle_cycle (onCycle_of_live huv hvu)) (ha u)

/-- Scenario A is accepted: its targets exist, it is acyclic, and
`validate_graph` returns `true` with an empty diagnostic list. -/
theorem validate_graph_accepts_dag_witness :
    TargetsExist scenarioA ∧ Acyclic scenarioA ∧ validate_graph scenarioA = some (true, []) :=
  have ht : TargetsExist scenarioA := by unfold TargetsExist; decide
  have ha : Acyclic scenarioA :=
    acyclic_of_rank scenarioA (fun s => if s = "A" then 1 else 0) (by decide)
  ⟨ht, ha, validate_graph_accepts_dag scenarioA ht ha⟩

/-- Claim C2. When the option edges contain a directed cycle (a self-loop
counts, and the start node plays no role), `validate_graph` returns `false`
and writes at least one cycle message `u -> v` whose edge lies on a directed
cycle. -/
theorem validate_graph_rejects_cycle (g : StoryGraph) (h : HasCycle g) :
    ∃ log, validate_graph g = some (false, log) ∧
      ∃ u v, Diag.cycle u v ∈ log ∧ OnCycle g u v := by
  obtain ⟨x, hx⟩ := h
  obtain ⟨hxex, hxlive⟩ := cycle_live_of_edge hx
  obtain ⟨ok, st', hr, hpost⟩ := validate_graph_spec g
  obtain ⟨extra, hextra, _, _, hcons⟩ := hpost.log
  rcases hpost.first (fun v => by simp [initColor]) with ⟨_, hg, _⟩ | ⟨u, v, r, hl, huv, hvu⟩
  · exfalso
    obtain ⟨kv, hkv, hk⟩ := (mapFind_isSome_iff x g.nodes).mp hxex
    have h0 : st'.color x ≠ 0 := hk ▸ hpost.visited kv hkv
    have h1 : st'.color x ≠ 1 := hg x
    have h2 : st'.color x ≠ 2 := fun h2 => hpost.inv.acyc x h2 hxlive
    have := hpost.inv.le2 x
    omega
  · have hmem : Diag.cycle u v ∈ st'.log := by rw [hl]; simp
    have he : extra ≠ [] := by
      intro he
      rw [hextra] at hmem
      have := cycle_mem_extra hmem
      simp [he] at this
    refine ⟨st'.log, ?_, u, v, hmem, onCycle_of_live huv hvu⟩
    rw [hr, hcons he]

/-- Scenario B has the cycle `A -> B -> A`; `validate_graph` returns `false`
and reports the edge `B -> A`, which lies on that cycle. -/
theorem validate_graph_rejects_cycle_witness :
    HasCycle scenarioB ∧ validate_graph scenarioB = some (false, [Diag.cycle "B" "A"]) ∧
      ∃ log, validate_graph scenarioB = some (false, log) ∧
        ∃ u v, Diag.cycle u v ∈ log ∧ OnCycle scenarioB u v :=
  have hAB : Edge scenarioB "A" "B" := ⟨⟨"A", "a", [("x", "B")]⟩, by decide, by decide⟩
  have hBA : Edge scenarioB "B" "A" := ⟨⟨"B", "b", [("y", "A")]⟩, by decide, by decide⟩
  have hc : HasCycle scenarioB := ⟨"A", Relation.TransGen.tail (Relation.TransGen.single hAB) hBA⟩
  ⟨hc, by decide, validate_graph_rejects_cycle scenarioB hc⟩

/-- Claim C3. The dangling-edge messages written by `validate_graph` are exactly
one `(node.id, target)` entry per option occurrence whose target is not a key,
in map and option order, and when such an option exists the result is
`false`. -/
theorem validate_graph_dangling_exact (g : StoryGraph) :
    ∃ ok log, validate_graph g = some (ok, log) ∧
      log.filter Diag.isDangling = danglingOf g ∧
      ((∃ kv ∈ g.nodes, ∃ opt ∈ kv.2.options, g.node_exists opt.2 = false) → ok = false) := by
  obtain ⟨ok, st', hr, hpost⟩ := validate_graph_spec g
  obtain ⟨extra, hextra, hcyc, hnil, hcons⟩ := hpost.log
  refine ⟨ok, st'.log, hr, ?_, ?_⟩
  · change st'.log = danglingOf g ++ extra at hextra
    rw [hextra, List.filter_append]
    have h₁ : (danglingOf g).filter Diag.isDangling = danglingOf g :=
      List.filter_eq_self.mpr (danglingOf_isDangling g)
    have h₂ : extra.filter Diag.isDangling = [] := by
      rw [List.filter_eq_nil_iff]
      intro d hd
      have := hcyc d hd
      cases d <;> simp_all [Diag.isCycle, Diag.isDangling]
    rw [h₁, h₂, List.append_nil]
  · rintro ⟨kv, hkv, opt, hopt, hex⟩
    have hne : danglingOf g ≠ [] := by
      intro hnil'
      have hmem : Diag.dangling kv.2.id opt.2 ∈ danglingOf g := by
        unfold danglingOf danglingOfNode
        refine List.mem_flatMap.mpr ⟨kv, hkv, List.mem_filterMap.mpr ⟨opt, hopt, ?_⟩⟩
        simp [hex]
      rw [hnil'] at hmem
      simp at hmem
    by_cases he : extra = []
    · have := hnil he
      rw [this]
      cases hd : danglingOf g with
      | nil => exact absurd hd hne
      | cons _ _ => rfl
    · exact hcons he

/-- Scenario C: the only option targets the missing id `MISSING`;
`validate_graph` returns `false` and reports `A -> MISSING`. -/
theorem validate_graph_dangling_exact_witness :
    validate_graph scenarioC = some (false, [Diag.dangling "A" "MISSING"]) ∧
      danglingOf scenarioC = [Diag.dangling "A" "MISSING"] ∧
      ∃ ok log, validate_graph scenarioC = some (ok, log) ∧
        log.filter Diag.isDangling = danglingOf scenarioC ∧
        ((∃ kv ∈ scenarioC.nodes, ∃ opt ∈ kv.2.options, scenarioC.node_exists opt.2 = false) →
          ok = false) :=
  ⟨by decide, by decide, validate_graph_dangling_exact scenarioC⟩

theorem chain_transGen {α : Type} {R : α → α → Prop} :
    ∀ (l : List α) (a b : α), List.Chain R a (l ++ [b]) → Relation.TransGen R a b := by
  intro l
  induction l with
  | nil =>
    intro a b h
    simp only [List.nil_append, List.chain_cons] at h
    exact Relation.TransGen.single h.1
  | cons c l ih =>
    intro a b h
    simp only [List.cons_append, List.chain_cons] at h
    exact Relation.TransGen.head h.1 (ih c b h.2)

theorem isCycle_transGen {g : StoryGraph} {c : List String} (hc : IsCycle g c) :
    ∀ x ∈ c, Relation.TransGen (Edge g) x x := by
  cases c with
  | nil => exact fun _ h => absurd h (List.not_mem_nil _)
  | cons a t =>
    intro x hx
    have hchain : List.Chain (Edge g) a (t ++ [a]) := hc
    rcases List.mem_cons.mp hx with rfl | hxt
    · exact chain_transGen t x x hchain
    · obtain ⟨l₁, l₂, rfl⟩ := List.append_of_mem hxt
      rw [List.append_assoc, List.cons_append, List.chain_split] at hchain
      exact Relation.TransGen.trans (chain_transGen l₂ x a hchain.2)
        (chain_transGen l₁ a x hchain.1)

/-- Claim C4, as the code has it. For every directed cycle of the option edges,
`validate_graph` returns `false`, and for every node `x` of the cycle it
writes a cycle message `u -> v` whose edge lies on a directed cycle and whose
source `u` is reachable from `x`: each traversal stops at its first edge into
a grey node, so the message need not name an edge of that very cycle. -/
theorem validate_graph_cycle_coverage (g : StoryGraph) (c : List String) (hc : IsCycle g c) :
    ∃ log, validate_graph g = some (false, log) ∧
      ∀ x ∈ c, ∃ u v, Diag.cycle u v ∈ log ∧ Relation.ReflTransGen (Edge g) x u ∧
        OnCycle g u v := by
  obtain ⟨ok, st', hr, hpost⟩ := validate_graph_spec g
  obtain ⟨extra, hextra, _, _, hcons⟩ := hpost.log
  have hcov : GreyCovered g st' := hpost.covered (fun x hx => by simp [initColor] at hx)
  have hall : ∀ x ∈ c, ∃ u v, Diag.cycle u v ∈ st'.log ∧
      Relation.ReflTransGen (Edge g) x u ∧ OnCycle g u v := by
    intro x hx
    obtain ⟨hxex, hxlive⟩ := cycle_live_of_edge (isCycle_transGen hc x hx)
    obtain ⟨kv, hkv, hk⟩ := (mapFind_isSome_iff x g.nodes).mp hxex
    have h0 : st'.color x ≠ 0 := hk ▸ hpost.visited kv hkv
    have h2 : st'.color x ≠ 2 := fun h2 => hpost.inv.acyc x h2 hxlive
    have hle := hpost.inv.le2 x
    obtain ⟨u, v, huv, hxu, hedge, hback⟩ := hcov x (by omega)
    exact ⟨u, v, huv, reach_edge_of_live hxu, onCycle_of_live hedge hback⟩
  refine ⟨st'.log, ?_, hall⟩
  cases c with
  | nil => exact absurd hc (by simp [IsCycle])
  | cons a t =>
    obtain ⟨u, v, hmem, _⟩ := hall a (List.mem_cons_self _ _)
    have he : extra ≠ [] := by
      intro he
      rw [hextra] at hmem
      have := cycle_mem_extra hmem
      simp [he] at this
    rw [hr, hcons he]

/-- The graph `twoCycles` at its self-loop `A -> A`: the result is `false` and
the one message written, `B -> A`, lies on the cycle `A -> B -> A` and has a
source reachable from `A`. -/
theorem validate_graph_cycle_coverage_witness :
    IsCycle twoCycles ["A"] ∧
      ∃ log, validate_graph twoCycles = some (false, log) ∧
        ∀ x ∈ ["A"], ∃ u v, Diag.cycle u v ∈ log ∧
          Relation.ReflTransGen (Edge twoCycles) x u ∧ OnCycle twoCycles u v :=
  have hAA : Edge twoCycles "A" "A" :=
    ⟨⟨"A", "a", [("x", "B"), ("y", "A")]⟩, by decide, by decide⟩
  have hc : IsCycle twoCycles ["A"] := List.Chain.cons hAA List.Chain.nil
  ⟨hc, validate_graph_cycle_coverage twoCycles ["A"] hc⟩

/-- Claim C4 as stated fails. In `twoCycles` the self-loop `A -> A` is a directed
cycle, and `validate_graph` writes the single message `B -> A`: no edge of
that cycle is reported. -/
theorem validate_graph_misses_cycle :
    IsCycle twoCycles ["A"] ∧
      validate_graph twoCycles = some (false, [Diag.cycle "B" "A"]) ∧
      ¬ ∃ e ∈ cycleEdges ["A"], Diag.cycle e.1 e.2 ∈ [Diag.cycle "B" "A"] :=
  have hAA : Edge twoCycles "A" "A" :=
    ⟨⟨"A", "a", [("x", "B"), ("y", "A")]⟩, by decide, by decide⟩
  ⟨List.Chain.cons hAA List.Chain.nil, by decide, by decide⟩

/-! ## Fuel -/

theorem dfs_options_mono (g : StoryGraph)
    (r₁ r₂ : String → DfsState → Option (Bool × DfsState))
    (h : ∀ id st res, r₁ id st = some res → r₂ id st = some res) (id : String) :
    ∀ (opts : List (String × String)) (st : DfsState) (res : Bool × DfsState),
      dfs_options g r₁ id opts st = some res → dfs_options g r₂ id opts st = some res := by
  intro opts
  induction opts with
  | nil => intro st res hres; simpa [dfs_options] using hres
  | cons opt rest ih =>
    intro st res hres
    unfold dfs_options at hres ⊢
    split_ifs at hres ⊢ with h₁ h₂ h₃
    · exact ih st res hres
    · exact hres
    · cases hrec : r₁ opt.2 st with
      | none => simp [hrec] at hres
      | some p =>
        obtain ⟨b, st'⟩ := p
        rw [h _ _ _ hrec]
        rw [hrec] at hres
        cases b with
        | true => exact hres
        | false => exact ih st' res hres
    · exact ih st res hres

theorem dfs_cycle_fuel_succ (g : StoryGraph) :
    ∀ (fuel : Nat) (id : String) (st : DfsState) (res : Bool × DfsState),
      dfs_cycle g fuel id st = some res → dfs_cycle g (fuel + 1) id st = some res := by
  intro fuel
  induction fuel with
  | zero => intro id st res h; simp [dfs_cycle] at h
  | succ fuel ih =>
    intro id st res h
    unfold dfs_cycle at h ⊢
    cases hn : g.get_node_ptr id with
    | none => simpa [hn] using h
    | some node =>
      simp only [hn] at h ⊢
      cases hl : dfs_options g (dfs_cycle g fuel) id node.options
          { st with color := setColor st.color id 1 } with
      | none => simp [hl] at h
      | some p =>
        rw [dfs_options_mono g _ _ ih id _ _ _ hl]
        rw [hl] at h
        exact h

theorem dfs_cycle_fuel_le (g : StoryGraph) {f f' : Nat} (hle : f ≤ f') (id : String)
    (st : DfsState) (res : Bool × DfsState) (h : dfs_cycle g f id st = some res) :
    dfs_cycle g f' id st = some res := by
  induction hle with
  | refl => exact h
  | step _ ih => exact dfs_cycle_fuel_succ g _ id st res ih

theorem dfs_roots_fuel_le (g : StoryGraph) {f f' : Nat} (hle : f ≤ f') :
    ∀ (kvs : List (String × SceneNode)) (acc res : Bool × DfsState),
      dfs_roots g f kvs acc = some res → dfs_roots g f' kvs acc = some res := by
  intro kvs
  induction kvs with
  | nil => intro acc res h; simpa [dfs_roots] using h
  | cons kv rest ih =>
    intro acc res h
    obtain ⟨ok, st⟩ := acc
    unfold dfs_roots at h ⊢
    split_ifs at h ⊢ with hw
    · cases hc : dfs_cycle g f kv.1 st with
      | none => simp [hc] at h
      | some p =>
        obtain ⟨b, st'⟩ := p
        rw [dfs_cycle_fuel_le g hle _ _ _ hc]
        rw [hc] at h
        cases b with
        | true => exact ih _ _ h
        | false => exact ih _ _ h
    · exact ih _ _ h

theorem validate_graph_fuel_stable (g : StoryGraph) (fuel : Nat)
    (h : g.get_node_count < fuel) : validate_graph_fuel fuel g = validate_graph g := by
  obtain ⟨ok, st', hr, _⟩ := validate_graph_spec g
  rw [hr]
  unfold validate_graph validate_graph_fuel at hr
  unfold validate_graph_fuel
  dsimp only at hr ⊢
  cases hroots : dfs_roots g (g.get_node_count + 1) g.get_all_nodes
      ((check_edges g g.get_all_nodes (true, [])).1,
        { color := initColor, log := (check_edges g g.get_all_nodes (true, [])).2 }) with
  | none => simp [hroots] at hr
  | some p =>
    rw [dfs_roots_fuel_le g (Nat.succ_le_of_lt h) _ _ _ hroots]
    rw [hroots] at hr
    exact hr

/-! ## `add_node` -/

theorem mapInsert_cons_lt {k k' : String} (h : keyLt k k') (v v' : SceneNode)
    (rest : List (String × SceneNode)) :
    mapInsert k v ((k', v') :: rest) = (k, v) :: (k', v') :: rest := by
  simp [mapInsert, h]

theorem mapInsert_cons_eq (k : String) (v v' : SceneNode) (rest : List (String × SceneNode)) :
    mapInsert k v ((k, v') :: rest) = (k, v) :: rest := by
  simp [mapInsert, keyLt_irrefl]

theorem mapInsert_cons_gt {k k' : String} (h : keyLt k' k) (v v' : SceneNode)
    (rest : List (String × SceneNode)) :
    mapInsert k v ((k', v') :: rest) = (k', v') :: mapInsert k v rest := by
  have h₁ : ¬ keyLt k k' := keyLt_asymm h
  have h₂ : ¬ k = k' := fun e => keyLt_irrefl k (e ▸ h)
  simp [mapInsert, h₁, h₂]

theorem mapInsert_comm_lt {a b : String} (h : keyLt a b) (va vb : SceneNode) :
    ∀ l : List (String × SceneNode),
      mapInsert a va (mapInsert b vb l) = mapInsert b vb (mapInsert a va l) := by
  intro l
  induction l with
  | nil =>
    show mapInsert a va [(b, vb)] = mapInsert b vb [(a, va)]
    rw [mapInsert_cons_lt h, mapInsert_cons_gt h]
    rfl
  | cons hd tl ih =>
    obtain ⟨k, v⟩ := hd
    rcases keyLt_trichotomy k a with hka | rfl | hak
    · have hkb := keyLt_trans hka h
      rw [mapInsert_cons_gt hkb, mapInsert_cons_gt hka, mapInsert_cons_gt hka,
        mapInsert_cons_gt hkb, ih]
    · rw [mapInsert_cons_gt h, mapInsert_cons_eq, mapInsert_cons_eq, mapInsert_cons_gt h]
    · rcases keyLt_trichotomy k b with hkb | rfl | hbk
      · rw [mapInsert_cons_gt hkb, mapInsert_cons_lt hak, mapInsert_cons_lt hak,
          mapInsert_cons_gt h, mapInsert_cons_gt hkb]
      · rw [mapInsert_cons_eq, mapInsert_cons_lt h, mapInsert_cons_lt h,
          mapInsert_cons_gt h, mapInsert_cons_eq]
      · rw [mapInsert_cons_lt hbk, mapInsert_cons_lt h, mapInsert_cons_lt (keyLt_trans h hbk),
          mapInsert_cons_gt h, mapInsert_cons_lt hbk]

theorem mapInsert_comm {a b : String} (h : a ≠ b) (va vb : SceneNode)
    (l : List (String × SceneNode)) :
    mapInsert a va (mapInsert b vb l) = mapInsert b vb (mapInsert a va l) := by
  rcases keyLt_trichotomy a b with hab | hab | hba
  · exact mapInsert_comm_lt hab va vb l
  · exact absurd hab h
  · exact (mapInsert_comm_lt hba vb va l).symm

theorem add_node_comm (g : StoryGraph) {x y : SceneNode} (h : x.id ≠ y.id) :
    ((g.add_node x).1.add_node y).1 = ((g.add_node y).1.add_node x).1 := by
  simp only [StoryGraph.add_node]
  rw [mapInsert_comm h.symm]

theorem add_nodes_perm (g : StoryGraph) {l₁ l₂ : List SceneNode} (hp : l₁.Perm l₂)
    (hd : (l₁.map SceneNode.id).Nodup) : add_nodes g l₁ = add_nodes g l₂ := by
  unfold add_nodes
  apply List.Perm.foldl_eq' hp
  intro x hx y hy z
  by_cases hxy : x.id = y.id
  · have : x = y := List.inj_on_of_nodup_map hd hx hy hxy
    rw [this]
  · exact add_node_comm z hxy

/-- Claim C5. Two sequences of `add_node` calls that are permutations of each
other and insert pairwise distinct ids build the same graph, so
`validate_graph` returns the same boolean and the same diagnostics on both. -/
theorem validate_graph_insertion_order (g : StoryGraph) (l₁ l₂ : List SceneNode)
    (hp : l₁.Perm l₂) (hd : (l₁.map SceneNode.id).Nodup) :
    add_nodes g l₁ = add_nodes g l₂ ∧
      validate_graph (add_nodes g l₁) = validate_graph (add_nodes g l₂) := by
  have h := add_nodes_perm g hp hd
  exact ⟨h, by rw [h]⟩

/-- Scenario A inserted as `A, B` and as `B, A`: the same graph and the same
validation result. -/
theorem validate_graph_insertion_order_witness :
    [nodeA, nodeB].Perm [nodeB, nodeA] ∧ ([nodeA, nodeB].map SceneNode.id).Nodup ∧
      add_nodes StoryGraph.empty [nodeB, nodeA] =
        { nodes := [("A", nodeA), ("B", nodeB)], start_node_id := "START" } ∧
      add_nodes StoryGraph.empty [nodeA, nodeB] = add_nodes StoryGraph.empty [nodeB, nodeA] ∧
      validate_graph (add_nodes StoryGraph.empty [nodeA, nodeB]) =
        validate_graph (add_nodes StoryGraph.empty [nodeB, nodeA]) :=
  have hp : [nodeA, nodeB].Perm [nodeB, nodeA] := List.Perm.swap nodeB nodeA []
  have hd : ([nodeA, nodeB].map SceneNode.id).Nodup := by decide
  ⟨hp, hd, by decide, validate_graph_insertion_order StoryGraph.empty _ _ hp hd⟩

/-- Claim C8. The method `add_node` inserts or replaces, last write wins: the
lookup of `n.id` afterwards returns exactly `n`, every other lookup is
unchanged, the start id is unchanged, and the duplicate-id warning is written
exactly when `n.id` was already a key. -/
theorem add_node_insert_or_replace (g : StoryGraph) (n : SceneNode) :
    (g.add_node n).1.get_node_ptr n.id = some n ∧
      (∀ j, j ≠ n.id → (g.add_node n).1.get_node_ptr j = g.get_node_ptr j) ∧
      (g.add_node n).2 = (if g.node_exists n.id then [Diag.duplicate n.id] else []) ∧
      ((g.add_node n).2 ≠ [] ↔ g.node_exists n.id = true) ∧
      (g.add_node n).1.start_node_id = g.start_node_id := by
  refine ⟨mapFind_mapInsert_self n.id n g.nodes,
    fun j hj => mapFind_mapInsert_ne hj n g.nodes, rfl, ?_, rfl⟩
  unfold StoryGraph.add_node StoryGraph.node_exists
  by_cases h : (mapFind n.id g.nodes).isSome = true
  · simp [h]
  · simp [h]

/-- Scenario D: the id `A` added twice with different text.  The lookup
returns the second node, the first call writes nothing and the second writes
one warning. -/
theorem add_node_insert_or_replace_witness :
    (StoryGraph.empty.add_node firstA).2 = [] ∧
      ((StoryGraph.empty.add_node firstA).1.add_node secondA).2 = [Diag.duplicate "A"] ∧
      ((StoryGraph.empty.add_node firstA).1.add_node secondA).1.get_node_ptr "A" =
        some secondA ∧
      secondA.text = "second text" ∧
      ((StoryGraph.empty.add_node firstA).1.add_node secondA).1.get_node_ptr secondA.id =
        some secondA :=
  ⟨by decide, by decide, by decide, by decide,
    (add_node_insert_or_replace (StoryGraph.empty.add_node firstA).1 secondA).1⟩

/-! ## The session loop -/

theorem session_step_missing (g : StoryGraph) (provider : ChoiceProvider) (cur : String)
    (asked : Nat) (h : g.get_node_ptr cur = none) :
    session_step g provider cur asked =
      (none, asked, StepResult.stop (SessionEnd.nodeNotFound cur)) := by
  simp [session_step, h]

theorem session_step_ending (g : StoryGraph) (provider : ChoiceProvider) (cur : String)
    (asked : Nat) (node : SceneNode) (h : g.get_node_ptr cur = some node)
    (he : node.is_ending = true) :
    session_step g provider cur asked =
      (some node, asked, StepResult.stop (SessionEnd.ended cur)) := by
  simp [session_step, h, he]

theorem session_step_choice (g : StoryGraph) (provider : ChoiceProvider) (cur : String)
    (asked : Nat) (node : SceneNode) (h : g.get_node_ptr cur = some node)
    (he : node.is_ending = false)
    (hr : 0 ≤ provider asked (node.options.length : Int) ∧
      provider asked (node.options.length : Int) < (node.options.length : Int)) :
    ∃ opt, node.options.get? (provider asked (node.options.length : Int)).toNat = some opt ∧
      session_step g provider cur asked = (some node, asked + 1, StepResult.next opt.2) := by
  have hlt : (provider asked (node.options.length : Int)).toNat < node.options.length := by
    omega
  refine ⟨node.options.get ⟨_, hlt⟩, List.get?_eq_get hlt, ?_⟩
  simp [session_step, h, he, hr]

theorem session_step_shown (g : StoryGraph) (provider : ChoiceProvider) (cur : String)
    (asked : Nat) (shown : Option SceneNode) (asked' : Nat) (res : StepResult)
    (h : session_step g provider cur asked = (shown, asked', res)) :
    (∀ n, shown = some n → g.get_node_ptr cur = some n) ∧
      (∀ id, res = StepResult.next id → ∃ n, shown = some n ∧ ∃ opt ∈ n.options, opt.2 = id) := by
  unfold session_step at h
  cases hn : g.get_node_ptr cur with
  | none =>
    simp only [hn] at h
    simp only [Prod.mk.injEq] at h
    obtain ⟨h₁, _, h₃⟩ := h
    subst h₁ h₃
    exact ⟨fun n hn' => by simp at hn', fun id hid => by simp at hid⟩
  | some node =>
    simp only [hn] at h
    split_ifs at h with he hr
    · simp only [Prod.mk.injEq] at h
      obtain ⟨h₁, _, h₃⟩ := h
      subst h₁ h₃
      exact ⟨fun n hn' => hn', fun id hid => by simp at hid⟩
    · simp only [Prod.mk.injEq] at h
      obtain ⟨h₁, _, h₃⟩ := h
      subst h₁ h₃
      refine ⟨fun n hn' => hn', fun id hid => ?_⟩
      simp only [StepResult.next.injEq] at hid
      exact ⟨node, rfl, _, List.get_mem _ _ _, hid⟩
    · simp only [Prod.mk.injEq] at h
      obtain ⟨h₁, _, h₃⟩ := h
      subst h₁ h₃
      exact ⟨fun n hn' => hn', fun id hid => by simp at hid⟩

theorem session_loop_path (g : StoryGraph) (provider : ChoiceProvider) :
    ∀ (fuel : Nat) (cur : String) (rendered : List SceneNode) (asked trans : Nat)
      (r : SessionResult),
      session_loop g provider fuel cur rendered asked trans = some r →
      ∃ path, r.rendered = rendered ++ path ∧ List.Chain' (Follows g) path ∧
        ∀ n, path.head? = some n → g.get_node_ptr cur = some n := by
  intro fuel
  induction fuel with
  | zero => intro cur rendered asked trans r h; simp [session_loop] at h
  | succ fuel ih =>
    intro cur rendered asked trans r h
    unfold session_loop at h
    rcases hs : session_step g provider cur asked with ⟨shown, asked', res⟩
    obtain ⟨hshown, hnext⟩ := session_step_shown g provider cur asked shown asked' res hs
    rw [hs] at h
    cases res with
    | stop out =>
      simp only [Option.some.injEq] at h
      subst h
      refine ⟨shown.toList, rfl, ?_, ?_⟩
      · cases shown <;> simp
      · intro n hn
        cases shown with
        | none => simp at hn
        | some m =>
          simp only [Option.toList, List.head?_cons, Option.some.injEq] at hn
          exact hshown n (by rw [hn])
    | next id =>
      simp only at h
      obtain ⟨path, hpath, hchain, hhead⟩ := ih id _ _ _ r h
      obtain ⟨n, hn, opt, hopt, hid⟩ := hnext id rfl
      subst hn
      refine ⟨n :: path, by simp [hpath], ?_, ?_⟩
      · cases path with
        | nil => simp
        | cons m rest =>
          refine List.Chain'.cons ?_ hchain
          exact ⟨opt, hopt, by rw [hid]; exact hhead m rfl⟩
      · intro m hm
        simp only [List.head?_cons, Option.some.injEq] at hm
        exact hshown m (by rw [hm])

/-- Claim C9. When the start id is not a key of the node map, a session ends in
its first iteration with the node-not-found error for the start id: no scene
is rendered and no choice is requested. -/
theorem RunGameDemo_missing_start (g : StoryGraph) (provider : ChoiceProvider) (fuel : Nat)
    (h : g.node_exists g.get_start_node_id = false) :
    RunGameDemo (fuel + 1) g provider =
      some { rendered := [], asked := 0, transitions := 0,
             outcome := SessionEnd.nodeNotFound g.get_start_node_id } := by
  have hn : g.get_node_ptr g.get_start_node_id = none := by
    unfold StoryGraph.node_exists at h
    unfold StoryGraph.get_node_ptr
    cases hm : mapFind g.get_start_node_id g.nodes with
    | none => rfl
    | some n => simp [hm] at h
  unfold RunGameDemo session_loop
  rw [session_step_missing g provider _ _ hn]
  rfl

/-- The empty graph with the default start id `START`: the session stops at
once with node-not-found for `START`. -/
theorem RunGameDemo_missing_start_witness :
    StoryGraph.empty.node_exists StoryGraph.empty.get_start_node_id = false ∧
      RunGameDemo 1 StoryGraph.empty firstChoice =
        some { rendered := [], asked := 0, transitions := 0,
               outcome := SessionEnd.nodeNotFound "START" } :=
  ⟨by decide, RunGameDemo_missing_start StoryGraph.empty firstChoice 0 (by decide)⟩

/-- Claim C10. One iteration follows exactly the chosen edge: at an existing
node with options and an in-range answer `i`, the next `current_node_id` is
the target of the `i`-th option and one more choice has been consumed; at an
existing node without options the node is rendered and the session ends
without a choice being requested.  The nodes rendered by a run are therefore
linked by option edges, the first one being the node of the start id. -/
theorem session_follows_chosen_edge (g : StoryGraph) (provider : ChoiceProvider) :
    (∀ cur asked node, g.get_node_ptr cur = some node → node.is_ending = false →
      0 ≤ provider asked (node.options.length : Int) ∧
        provider asked (node.options.length : Int) < (node.options.length : Int) →
      ∃ opt, node.options.get? (provider asked (node.options.length : Int)).toNat = some opt ∧
        session_step g provider cur asked = (some node, asked + 1, StepResult.next opt.2)) ∧
    (∀ cur asked node, g.get_node_ptr cur = some node → node.is_ending = true →
      session_step g provider cur asked =
        (some node, asked, StepResult.stop (SessionEnd.ended cur))) ∧
    (∀ fuel r, RunGameDemo fuel g provider = some r →
      List.Chain' (Follows g) r.rendered ∧
        ∀ n, r.rendered.head? = some n → g.get_node_ptr g.get_start_node_id = some n) := by
  refine ⟨fun cur asked node h he hr => session_step_choice g provider cur asked node h he hr,
    fun cur asked node h he => session_step_ending g provider cur asked node h he, ?_⟩
  intro fuel r h
  obtain ⟨path, hpath, hchain, hhead⟩ := session_loop_path g provider fuel _ _ _ _ r h
  simp only [List.nil_append] at hpath
  rw [hpath]
  exact ⟨hchain, hhead⟩

/-- Scenario A with choice 0: the run renders `A`, consumes one choice, moves
to `B`, renders `B` and ends there. -/
theorem session_follows_chosen_edge_witness :
    RunGameDemo 2 scenarioA firstChoice =
        some { rendered := [nodeA, nodeB], asked := 1, transitions := 1,
               outcome := SessionEnd.ended "B" } ∧
      session_step scenarioA firstChoice "A" 0 = (some nodeA, 1, StepResult.next "B") ∧
      session_step scenarioA firstChoice "B" 1 =
        (some nodeB, 1, StepResult.stop (SessionEnd.ended "B")) ∧
      List.Chain' (Follows scenarioA) [nodeA, nodeB] :=
  have h : RunGameDemo 2 scenarioA firstChoice =
      some { rendered := [nodeA, nodeB], asked := 1, transitions := 1,
             outcome := SessionEnd.ended "B" } := by decide
  ⟨h, by decide, by decide,
    ((session_follows_chosen_edge scenarioA firstChoice).2.2 2 _ h).1⟩

/-! ## Sessions on a validated graph -/

theorem targetsExist_of_danglingOf_nil {g : StoryGraph} (h : danglingOf g = []) :
    TargetsExist g := by
  intro kv hkv opt hopt
  by_contra hex
  have hmem : Diag.dangling kv.2.id opt.2 ∈ danglingOf g := by
    unfold danglingOf danglingOfNode
    refine List.mem_flatMap.mpr ⟨kv, hkv, List.mem_filterMap.mpr ⟨opt, hopt, ?_⟩⟩
    simp [hex]
  rw [h] at hmem
  simp at hmem

theorem validate_true_sound {g : StoryGraph} {log : List Diag}
    (h : validate_graph g = some (true, log)) : TargetsExist g ∧ Acyclic g := by
  obtain ⟨ok, st', hr, hpost⟩ := validate_graph_spec g
  rw [h] at hr
  simp only [Option.some.injEq, Prod.mk.injEq] at hr
  obtain ⟨hok, _⟩ := hr
  subst hok
  obtain ⟨extra, hextra, _, hnil, hcons⟩ := hpost.log
  have he : extra = [] := by
    by_contra he
    have := hcons he
    simp at this
  have hd : danglingOf g = [] := by
    have := hnil he
    simpa using this.symm
  refine ⟨targetsExist_of_danglingOf_nil hd, ?_⟩
  intro x hx
  obtain ⟨hxex, hxlive⟩ := cycle_live_of_edge hx
  rcases hpost.first (fun v => by simp [initColor]) with ⟨_, hg, _⟩ | ⟨u, v, r, hl, _, _⟩
  · obtain ⟨kv, hkv, hk⟩ := (mapFind_isSome_iff x g.nodes).mp hxex
    have h0 : st'.color x ≠ 0 := hk ▸ hpost.visited kv hkv
    have h1 : st'.color x ≠ 1 := hg x
    have h2 : st'.color x ≠ 2 := fun h2 => hpost.inv.acyc x h2 hxlive
    have := hpost.inv.le2 x
    omega
  · rw [hextra, he] at hl
    have := congrArg List.length hl
    simp at this

theorem keys_length_le (g : StoryGraph) (l : List String) (hd : l.Nodup)
    (hex : ∀ v ∈ l, g.node_exists v = true) : l.length ≤ g.get_node_count := by
  have hsub : l ⊆ g.nodes.map Prod.fst := by
    intro v hv
    obtain ⟨kv, hkv, hk⟩ := (mapFind_isSome_iff v g.nodes).mp (hex v hv)
    exact List.mem_map.mpr ⟨kv, hkv, hk⟩
  have := (List.Nodup.subperm hd hsub).length_le
  simpa [StoryGraph.get_node_count] using this

theorem session_loop_ended (g : StoryGraph) (provider : ChoiceProvider)
    (ht : TargetsExist g) (ha : Acyclic g) (hp : InRange provider) :
    ∀ (fuel : Nat) (cur : String) (visited : List String) (rendered : List SceneNode)
      (asked trans : Nat), g.node_exists cur = true → visited.Nodup →
      (∀ v ∈ visited, g.node_exists v = true ∧ Relation.TransGen (Edge g) v cur) →
      g.get_node_count < fuel + visited.length →
      ∃ r, session_loop g provider fuel cur rendered asked trans = some r ∧
        (∃ id, r.outcome = SessionEnd.ended id) ∧
        r.transitions + visited.length + 1 ≤ trans + g.get_node_count := by
  intro fuel
  induction fuel with
  | zero =>
    intro cur visited rendered asked trans hcur hnd hvis hfuel
    exfalso
    have := keys_length_le g visited hnd (fun v hv => (hvis v hv).1)
    omega
  | succ fuel ih =>
    intro cur visited rendered asked trans hcur hnd hvis hfuel
    have hnotin : cur ∉ visited := fun hin => ha cur (hvis cur hin).2
    have hnd' : (cur :: visited).Nodup := List.nodup_cons.mpr ⟨hnotin, hnd⟩
    have hlen : visited.length + 1 ≤ g.get_node_count := by
      have := keys_length_le g (cur :: visited) hnd' (by
        intro v hv
        rcases List.mem_cons.mp hv with rfl | hv'
        · exact hcur
        · exact (hvis v hv').1)
      simpa using this
    obtain ⟨node, hn⟩ := (node_exists_iff_get g cur).mp hcur
    unfold session_loop
    cases he : node.is_ending with
    | true =>
      rw [session_step_ending g provider cur asked node hn he]
      exact ⟨_, rfl, ⟨cur, rfl⟩, by simp only; omega⟩
    | false =>
      have hpos : 0 < (node.options.length : Int) := by
        unfold SceneNode.is_ending at he
        cases hopts : node.options with
        | nil => simp [hopts] at he
        | cons _ _ => simp
      obtain ⟨opt, hget, hstep⟩ :=
        session_step_choice g provider cur asked node hn he (hp asked _ hpos)
      rw [hstep]
      have hmem : opt ∈ node.options := List.get?_mem hget
      have hedge : Edge g cur opt.2 := ⟨node, hn, List.mem_map_of_mem _ hmem⟩
      have hnext : g.node_exists opt.2 = true := ht (cur, node) (mapFind_mem hn) opt hmem
      obtain ⟨r, hr, hend, hbound⟩ :=
        ih opt.2 (cur :: visited) (rendered ++ (some node).toList) (asked + 1) (trans + 1)
          hnext hnd' (by
            intro v hv
            rcases List.mem_cons.mp hv with rfl | hv'
            · exact ⟨hcur, Relation.TransGen.single hedge⟩
            · exact ⟨(hvis v hv').1, Relation.TransGen.tail (hvis v hv').2 hedge⟩)
          (by simp only [List.length_cons]; omega)
      refine ⟨r, hr, hend, ?_⟩
      simp only [List.length_cons] at hbound
      omega

theorem session_loop_fuel_succ (g : StoryGraph) (provider : ChoiceProvider) :
    ∀ (fuel : Nat) (cur : String) (rendered : List SceneNode) (asked trans : Nat)
      (r : SessionResult), session_loop g provider fuel cur rendered asked trans = some r →
      session_loop g provider (fuel + 1) cur rendered asked trans = some r := by
  intro fuel
  induction fuel with
  | zero => intro cur rendered asked trans r h; simp [session_loop] at h
  | succ fuel ih =>
    intro cur rendered asked trans r h
    unfold session_loop at h ⊢
    rcases hs : session_step g provider cur asked with ⟨shown, asked', res⟩
    rw [hs] at h
    cases res with
    | stop out => exact h
    | next id => exact ih _ _ _ _ r h

theorem session_loop_fuel_le (g : StoryGraph) (provider : ChoiceProvider) {f f' : Nat}
    (hle : f ≤ f') (cur : String) (rendered : List SceneNode) (asked trans : Nat)
    (r : SessionResult) (h : session_loop g provider f cur rendered asked trans = some r) :
    session_loop g provider f' cur rendered asked trans = some r := by
  induction hle with
  | refl => exact h
  | step _ ih => exact session_loop_fuel_succ g provider _ _ _ _ _ r ih

theorem inRange_firstChoice : InRange firstChoice := by
  intro k m hm
  exact ⟨le_refl 0, hm⟩

/-- Claim C6, with the start node present. On a graph that `validate_graph`
accepts and whose start id is a key of the node map, with a choice provider
that answers in range, `RunGameDemo` stops at a node without options after at
most `get_node_count` transitions (any fuel above the node count suffices). -/
theorem RunGameDemo_reaches_ending (g : StoryGraph) (provider : ChoiceProvider)
    (log : List Diag) (fuel : Nat) (hv : validate_graph g = some (true, log))
    (hs : g.node_exists g.get_start_node_id = true) (hp : InRange provider)
    (hf : g.get_node_count < fuel) :
    ∃ r, RunGameDemo fuel g provider = some r ∧ (∃ id, r.outcome = SessionEnd.ended id) ∧
      r.transitions ≤ g.get_node_count := by
  obtain ⟨ht, ha⟩ := validate_true_sound hv
  obtain ⟨r, hr, hend, hbound⟩ :=
    session_loop_ended g provider ht ha hp fuel g.get_start_node_id [] [] 0 0 hs
      List.nodup_nil (fun v hv' => absurd hv' (List.not_mem_nil v)) (by simpa using hf)
  refine ⟨r, hr, hend, ?_⟩
  simp only [List.length_nil] at hbound
  omega

/-- Scenario A is accepted, its start node exists, and with the first option
always chosen the run ends at `B` after one transition. -/
theorem RunGameDemo_reaches_ending_witness :
    validate_graph scenarioA = some (true, []) ∧
      scenarioA.node_exists scenarioA.get_start_node_id = true ∧
      RunGameDemo 3 scenarioA firstChoice =
        some { rendered := [nodeA, nodeB], asked := 1, transitions := 1,
               outcome := SessionEnd.ended "B" } ∧
      ∃ r, RunGameDemo 3 scenarioA firstChoice = some r ∧
        (∃ id, r.outcome = SessionEnd.ended id) ∧ r.transitions ≤ scenarioA.get_node_count :=
  ⟨by decide, by decide, by decide,
    RunGameDemo_reaches_ending scenarioA firstChoice [] 3 (by decide) (by decide)
      inRange_firstChoice (by decide)⟩

/-- Claim C6 as stated fails. The empty graph is accepted by `validate_graph`,
the provider answers in range, and yet no run reaches an ending: every run
stops with node-not-found for the start id `START`. -/
theorem RunGameDemo_validated_not_ended :
    validate_graph StoryGraph.empty = some (true, []) ∧ InRange firstChoice ∧
      RunGameDemo 1 StoryGraph.empty firstChoice =
        some { rendered := [], asked := 0, transitions := 0,
               outcome := SessionEnd.nodeNotFound "START" } ∧
      ¬ ∃ fuel r, RunGameDemo fuel StoryGraph.empty firstChoice = some r ∧
        ∃ id, r.outcome = SessionEnd.ended id := by
  refine ⟨by decide, inRange_firstChoice, by decide, ?_⟩
  rintro ⟨fuel, r, hr, id, hid⟩
  cases fuel with
  | zero => simp [RunGameDemo, session_loop] at hr
  | succ n =>
    have h : RunGameDemo (n + 1) StoryGraph.empty firstChoice =
        some { rendered := [], asked := 0, transitions := 0,
               outcome := SessionEnd.nodeNotFound "START" } := by
      unfold RunGameDemo session_loop
      rfl
    rw [h] at hr
    cases hr
    simp at hid

/-- Claim C7. On a graph that `validate_graph` accepts and whose start id is a
key of the node map, with a choice provider that answers in range, no run of
`RunGameDemo` takes the node-not-found branch, and runs do return (with any
fuel above the node count). -/
theorem RunGameDemo_never_not_found (g : StoryGraph) (provider : ChoiceProvider)
    (log : List Diag) (hv : validate_graph g = some (true, log))
    (hs : g.node_exists g.get_start_node_id = true) (hp : InRange provider) :
    (∀ fuel r, RunGameDemo fuel g provider = some r →
      ∀ id, r.outcome ≠ SessionEnd.nodeNotFound id) ∧
    (∀ fuel, g.get_node_count < fuel → ∃ r, RunGameDemo fuel g provider = some r) := by
  obtain ⟨ht, ha⟩ := validate_true_sound hv
  have hbig : ∀ fuel, g.get_node_count < fuel →
      ∃ r, RunGameDemo fuel g provider = some r ∧ ∃ id, r.outcome = SessionEnd.ended id := by
    intro fuel hf
    obtain ⟨r, hr, hend, _⟩ :=
      session_loop_ended g provider ht ha hp fuel g.get_start_node_id [] [] 0 0 hs
        List.nodup_nil (fun v hv' => absurd hv' (List.not_mem_nil v)) (by simpa using hf)
    exact ⟨r, hr, hend⟩
  refine ⟨?_, fun fuel hf => (hbig fuel hf).imp (fun _ h => h.1)⟩
  intro fuel r hr id hid
  obtain ⟨r', hr', id', hid'⟩ :=
    hbig (max fuel (g.get_node_count + 1)) (lt_of_lt_of_le (Nat.lt_succ_self _) (le_max_right _ _))
  have := session_loop_fuel_le g provider (le_max_left fuel (g.get_node_count + 1)) _ _ _ _ r hr
  unfold RunGameDemo at hr'
  rw [this] at hr'
  cases hr'
  rw [hid] at hid'
  cases hid'

/-- Scenario A: accepted, start node present, first option always chosen; the
run returns and its outcome is not node-not-found. -/
theorem RunGameDemo_never_not_found_witness :
    validate_graph scenarioA = some (true, []) ∧
      scenarioA.node_exists scenarioA.get_start_node_id = true ∧
      (∀ fuel r, RunGameDemo fuel scenarioA firstChoice = some r →
        ∀ id, r.outcome ≠ SessionEnd.nodeNotFound id) ∧
      (∀ fuel, scenarioA.get_node_count < fuel →
        ∃ r, RunGameDemo fuel scenarioA firstChoice = some r) :=
  ⟨by decide, by decide,
    RunGameDemo_never_not_found scenarioA firstChoice [] (by decide) (by decide)
      inRange_firstChoice⟩

/-! ## The start id plays no role in validation -/

theorem node_exists_congr {g₁ g₂ : StoryGraph} (h : g₁.nodes = g₂.nodes) :
    g₁.node_exists = g₂.node_exists := by
  funext id
  simp only [StoryGraph.node_exists, h]

theorem get_node_ptr_congr {g₁ g₂ : StoryGraph} (h : g₁.nodes = g₂.nodes) :
    g₁.get_node_ptr = g₂.get_node_ptr := by
  funext id
  simp only [StoryGraph.get_node_ptr, h]

theorem check_edges_congr {g₁ g₂ : StoryGraph} (h : g₁.nodes = g₂.nodes)
    (kvs : List (String × SceneNode)) (acc : Bool × List Diag) :
    check_edges g₁ kvs acc = check_edges g₂ kvs acc := by
  obtain ⟨ok, log⟩ := acc
  rw [check_edges_spec, check_edges_spec]
  simp only [danglingOfNode, node_exists_congr h]

theorem dfs_options_congr {g₁ g₂ : StoryGraph} (h : g₁.nodes = g₂.nodes)
    (recur : String → DfsState → Option (Bool × DfsState)) (id : String) :
    ∀ (opts : List (String × String)) (st : DfsState),
      dfs_options g₁ recur id opts st = dfs_options g₂ recur id opts st := by
  intro opts
  induction opts with
  | nil => intro st; rfl
  | cons opt rest ih =>
    intro st
    unfold dfs_options
    rw [node_exists_congr h]
    simp only [ih]

theorem dfs_cycle_congr {g₁ g₂ : StoryGraph} (h : g₁.nodes = g₂.nodes) :
    ∀ fuel : Nat, dfs_cycle g₁ fuel = dfs_cycle g₂ fuel := by
  intro fuel
  induction fuel with
  | zero => funext id st; rfl
  | succ fuel ih =>
    funext id st
    unfold dfs_cycle
    rw [get_node_ptr_congr h, ih]
    simp only [dfs_options_congr h]

theorem dfs_roots_congr {g₁ g₂ : StoryGraph} (h : g₁.nodes = g₂.nodes) (fuel : Nat) :
    ∀ (kvs : List (String × SceneNode)) (acc : Bool × DfsState),
      dfs_roots g₁ fuel kvs acc = dfs_roots g₂ fuel kvs acc := by
  intro kvs
  induction kvs with
  | nil => intro acc; rfl
  | cons kv rest ih =>
    intro acc
    obtain ⟨ok, st⟩ := acc
    unfold dfs_roots
    rw [dfs_cycle_congr h]
    simp only [ih]

theorem validate_graph_congr {g₁ g₂ : StoryGraph} (h : g₁.nodes = g₂.nodes) :
    validate_graph g₁ = validate_graph g₂ := by
  unfold validate_graph validate_graph_fuel StoryGraph.get_node_count StoryGraph.get_all_nodes
  simp only [h, check_edges_congr h, dfs_roots_congr h]

theorem validate_ok_of_dag (g : StoryGraph) (ht : TargetsExist g) (ha : Acyclic g) :
    validate_graph g = some (true, []) := by
  obtain ⟨ok, st', hr, hpost⟩ := validate_graph_spec g
  have hd := danglingOf_nil_of_targetsExist ht
  rw [hd] at hpost
  obtain ⟨extra, hextra, _, hnil, _⟩ := hpost.log
  rcases hpost.first (fun v => by simp [initColor]) with ⟨hl, _, _⟩ | ⟨u, v, r, _, huv, hvu⟩
  · have he : extra = [] := by
      rw [hl] at hextra
      simpa using hextra
    have hok : ok = true := by simpa using hnil he
    have hlog : st'.log = [] := hl
    rw [hr, hok, hlog]
  · exact absurd (onCycle_cycle (onCycle_of_live huv hvu)) (ha u)

/-- Claim C11. The result of `validate_graph` depends on the node map only:
two graphs with the same node map get the same boolean and the same
diagnostics whatever their start ids, `set_start_node` never changes the
result, and a graph whose start id is not a key validates successfully when
all its option targets exist and its option edges form no cycle. -/
theorem validate_graph_ignores_start :
    (∀ g₁ g₂ : StoryGraph, g₁.nodes = g₂.nodes → validate_graph g₁ = validate_graph g₂) ∧
    (∀ (g : StoryGraph) (id : String), validate_graph (g.set_start_node id) = validate_graph g) ∧
    (∀ g : StoryGraph, g.node_exists g.get_start_node_id = false → TargetsExist g → Acyclic g →
      validate_graph g = some (true, [])) :=
  ⟨fun _ _ h => validate_graph_congr h, fun _ _ => validate_graph_congr rfl,
    fun g _ ht ha => validate_ok_of_dag g ht ha⟩

/-- Scenario A with the start id `NOWHERE`: the start id is not a key, the
targets exist, there is no cycle, and `validate_graph` returns `true` with no
diagnostic, the same as for start id `A`. -/
theorem validate_graph_ignores_start_witness :
    scenarioE.node_exists scenarioE.get_start_node_id = false ∧
      validate_graph scenarioE = some (true, []) ∧
      validate_graph scenarioE = validate_graph scenarioA :=
  have ht : TargetsExist scenarioE := by unfold TargetsExist; decide
  have ha : Acyclic scenarioE :=
    acyclic_of_rank scenarioE (fun s => if s = "A" then 1 else 0) (by decide)
  ⟨by decide, validate_graph_ignores_start.2.2 scenarioE (by decide) ht ha,
    validate_graph_ignores_start.2.1 scenarioA "NOWHERE"⟩

/-! ## The top-level run -/

theorem session_loop_returns (g : StoryGraph) (provider : ChoiceProvider) (ha : Acyclic g) :
    ∀ (fuel : Nat) (cur : String) (visited : List String) (rendered : List SceneNode)
      (asked trans : Nat), visited.Nodup →
      (∀ v ∈ visited, g.node_exists v = true ∧ Relation.TransGen (Edge g) v cur) →
      g.get_node_count < fuel + visited.length →
      ∃ r, session_loop g provider fuel cur rendered asked trans = some r := by
  intro fuel
  induction fuel with
  | zero =>
    intro cur visited rendered asked trans hnd hvis hfuel
    exfalso
    have := keys_length_le g visited hnd (fun v hv => (hvis v hv).1)
    omega
  | succ fuel ih =>
    intro cur visited rendered asked trans hnd hvis hfuel
    unfold session_loop
    rcases hs : session_step g provider cur asked with ⟨shown, asked', res⟩
    obtain ⟨hshown, hnext⟩ := session_step_shown g provider cur asked shown asked' res hs
    cases res with
    | stop out => exact ⟨_, rfl⟩
    | next id =>
      obtain ⟨n, hn, opt, hopt, hid⟩ := hnext id rfl
      have hcur : g.get_node_ptr cur = some n := hshown n hn
      have hex : g.node_exists cur = true := (node_exists_iff_get g cur).mpr ⟨n, hcur⟩
      have hedge : Edge g cur id := ⟨n, hcur, hid ▸ List.mem_map_of_mem _ hopt⟩
      have hnotin : cur ∉ visited := fun hin => ha cur (hvis cur hin).2
      exact ih id (cur :: visited) _ _ _ (List.nodup_cons.mpr ⟨hnotin, hnd⟩) (by
          intro v hv
          rcases List.mem_cons.mp hv with rfl | hv'
          · exact ⟨hex, Relation.TransGen.single hedge⟩
          · exact ⟨(hvis v hv').1, Relation.TransGen.tail (hvis v hv').2 hedge⟩)
        (by simp only [List.length_cons]; omega)

theorem RunGameDemo_returns (g : StoryGraph) (provider : ChoiceProvider) (ha : Acyclic g)
    (fuel : Nat) (hf : g.get_node_count < fuel) : ∃ r, RunGameDemo fuel g provider = some r :=
  session_loop_returns g provider ha fuel g.get_start_node_id [] [] 0 0 List.nodup_nil
    (fun v hv => absurd hv (List.not_mem_nil v)) (by simpa using hf)

theorem play_loop_length (g : StoryGraph) (providers : Nat → ChoiceProvider)
    (again : Nat → Char) (sf : Nat) :
    ∀ (fuel k : Nat) (done res : List SessionResult),
      play_loop g providers again sf fuel k done = some res → done.length + 1 ≤ res.length := by
  intro fuel
  induction fuel with
  | zero => intro k done res h; simp [play_loop] at h
  | succ fuel ih =>
    intro k done res h
    unfold play_loop at h
    cases hr : RunGameDemo sf g (providers k) with
    | none => simp [hr] at h
    | some r =>
      simp only [hr] at h
      split_ifs at h with hs
      · have := ih _ _ _ h
        simp only [List.length_append, List.length_singleton] at this
        omega
      · simp only [Option.some.injEq] at h
        subst h
        simp

theorem play_loop_stops (g : StoryGraph) (providers : Nat → ChoiceProvider)
    (again : Nat → Char) (sf : Nat)
    (hret : ∀ k, ∃ r, RunGameDemo sf g (providers k) = some r) :
    ∀ (j fuel k : Nat) (done : List SessionResult),
      (∀ i, i < j → (again (k + i) = 's' ∨ again (k + i) = 'S')) →
      ¬ (again (k + j) = 's' ∨ again (k + j) = 'S') → j < fuel →
      ∃ res, play_loop g providers again sf fuel k done = some res ∧
        res.length = done.length + j + 1 := by
  intro j
  induction j with
  | zero =>
    intro fuel k done _ hstop hf
    obtain ⟨f, rfl⟩ : ∃ f, fuel = f + 1 := ⟨fuel - 1, by omega⟩
    obtain ⟨r, hr⟩ := hret k
    unfold play_loop
    simp only [hr]
    rw [if_neg (by simpa using hstop)]
    exact ⟨_, rfl, by simp⟩
  | succ j ih =>
    intro fuel k done hgo hstop hf
    obtain ⟨f, rfl⟩ : ∃ f, fuel = f + 1 := ⟨fuel - 1, by omega⟩
    obtain ⟨r, hr⟩ := hret k
    unfold play_loop
    simp only [hr]
    rw [if_pos (by simpa using hgo 0 (Nat.succ_pos j))]
    obtain ⟨res, hres, hlen⟩ := ih f (k + 1) (done ++ [r])
      (fun i hi => by
        have := hgo (i + 1) (by omega)
        rwa [show k + (i + 1) = k + 1 + i by omega] at this)
      (by rwa [show k + (j + 1) = k + 1 + j by omega] at hstop) (by omega)
    refine ⟨res, hres, ?_⟩
    rw [hlen]
    simp only [List.length_append, List.length_singleton]
    omega

/-- Claim C12. Validation is a hard gate in `main`: when `validate_graph`
returns `false` the exit code is 2 and no session is run; when it returns
`true` every run of `main` that returns has exit code 0 and ran at least one
session, and `main` does return once the replay question is answered with
something other than `s` or `S`.  The two exit codes differ and 2 is
non-zero. -/
theorem main_validation_gate (fuel : Nat) (g : StoryGraph) (providers : Nat → ChoiceProvider)
    (again : Nat → Char) :
    (∀ log, validate_graph g = some (false, log) →
      main_body fuel g providers again = some (2, [])) ∧
    (∀ log, validate_graph g = some (true, log) → ∀ code sessions,
      main_body fuel g providers again = some (code, sessions) →
        code = 0 ∧ 1 ≤ sessions.length) ∧
    (∀ log j, validate_graph g = some (true, log) →
      (∀ i, i < j → (again i = 's' ∨ again i = 'S')) → ¬ (again j = 's' ∨ again j = 'S') →
      g.get_node_count < fuel → j < fuel →
      ∃ sessions, main_body fuel g providers again = some (0, sessions) ∧
        sessions.length = j + 1) ∧
    (2 : Int) ≠ 0 := by
  refine ⟨?_, ?_, ?_, by decide⟩
  · intro log hv
    simp [main_body, hv]
  · intro log hv code sessions hm
    unfold main_body at hm
    simp only [hv] at hm
    cases hp : play_loop g providers again fuel fuel 0 [] with
    | none => simp [hp] at hm
    | some res =>
      simp only [hp, Option.some.injEq, Prod.mk.injEq] at hm
      obtain ⟨hc, hs⟩ := hm
      subst hc hs
      exact ⟨rfl, by simpa using play_loop_length g providers again fuel fuel 0 [] res hp⟩
  · intro log j hv hgo hstop hcount hj
    obtain ⟨_, ha⟩ := validate_true_sound hv
    obtain ⟨res, hres, hlen⟩ := play_loop_stops g providers again fuel
      (fun k => RunGameDemo_returns g (providers k) ha fuel hcount) j fuel 0 []
      (fun i hi => by simpa using hgo i hi) (by simpa using hstop) hj
    refine ⟨res, ?_, by simpa using hlen⟩
    simp [main_body, hv, hres]

/-- Two top-level runs.  Scenario B fails validation: exit code 2 and no
session.  The built story validates: with the first option always chosen and
the replay answer `n`, `main` runs one session that ends at `FINAL_MAPA` after
three transitions and returns 0. -/
theorem main_validation_gate_witness :
    main_body 3 scenarioB (fun _ => firstChoice) noReplay = some (2, []) ∧
      (main 13 (fun _ => firstChoice) noReplay).map
          (fun p => (p.1, p.2.map (fun r => (r.outcome, r.transitions)))) =
        some (0, [(SessionEnd.ended "FINAL_MAPA", 3)]) ∧
      ∃ sessions, main_body 13 (BuildGraph StoryGraph.empty).1 (fun _ => firstChoice) noReplay =
          some (0, sessions) ∧ sessions.length = 0 + 1 :=
  ⟨(main_validation_gate 3 scenarioB (fun _ => firstChoice) noReplay).1
      [Diag.cycle "B" "A"] (by decide),
    by decide,
    (main_validation_gate 13 (BuildGraph StoryGraph.empty).1 (fun _ => firstChoice)
      noReplay).2.2.1 [] 0 (by decide) (fun i hi => absurd hi (Nat.not_lt_zero i))
      (by decide) (by decide) (by decide)⟩

/-! ## Stale grey nodes -/

theorem staleGrey_reach_A :
    ∀ y, Relation.ReflTransGen (Edge staleGrey) "A" y → y = "A" := by
  intro y h
  induction h with
  | refl => rfl
  | tail _ hbc ih =>
    subst ih
    obtain ⟨node, hn, hc⟩ := hbc
    have hnode : node = ⟨"A", "a", [("x", "A")]⟩ := by
      have h₁ : staleGrey.get_node_ptr "A" = some ⟨"A", "a", [("x", "A")]⟩ := by decide
      rw [h₁] at hn
      exact (Option.some.inj hn).symm
    subst hnode
    simpa using hc

/-- Claim C13 fails on the code. On `staleGrey` the traversal of `A` returns
`true` at the self-loop and leaves `A` with colour 1; the traversal of the
next root `B` then finds `A` grey and writes the cycle message `B -> A`,
although `A` is not on the active path and the edge `B -> A` lies on no
directed cycle (`B` cannot be reached from `A`). -/
theorem validate_graph_reports_non_cycle_edge :
    validate_graph staleGrey = some (false, [Diag.cycle "A" "A", Diag.cycle "B" "A"]) ∧
      Edge staleGrey "B" "A" ∧ ¬ OnCycle staleGrey "B" "A" ∧
      ¬ Relation.TransGen (Edge staleGrey) "B" "B" := by
  have hBA : Edge staleGrey "B" "A" := ⟨⟨"B", "b", [("y", "A")]⟩, by decide, by decide⟩
  refine ⟨by decide, hBA, ?_, ?_⟩
  · rintro ⟨_, hreach⟩
    exact absurd (staleGrey_reach_A "B" hreach) (by decide)
  · intro hcyc
    obtain ⟨b, hBb, hbB⟩ := Relation.TransGen.head'_iff.mp hcyc
    obtain ⟨node, hn, hb⟩ := hBb
    have hnode : node = ⟨"B", "b", [("y", "A")]⟩ := by
      have h₁ : staleGrey.get_node_ptr "B" = some ⟨"B", "b", [("y", "A")]⟩ := by decide
      rw [h₁] at hn
      exact (Option.some.inj hn).symm
    subst hnode
    have hbA : b = "A" := by simpa using hb
    subst hbA
    exact absurd (staleGrey_reach_A "B" hbB) (by decide)

/-! ## Termination of `validate_graph` -/

theorem dfs_options_returns (g : StoryGraph) (fuel : Nat) (id : String)
    (hrec : ∀ tgt st, whiteCount g st.color ≤ fuel → g.node_exists tgt = true →
      st.color tgt = 0 →
      ∃ b st', dfs_cycle g fuel tgt st = some (b, st') ∧ ∀ v, st'.color v = 0 → st.color v = 0) :
    ∀ (opts : List (String × String)) (st : DfsState), whiteCount g st.color ≤ fuel →
      ∃ b st', dfs_options g (dfs_cycle g fuel) id opts st = some (b, st') ∧
        ∀ v, st'.color v = 0 → st.color v = 0 := by
  intro opts
  induction opts with
  | nil => intro st _; exact ⟨false, st, rfl, fun _ h => h⟩
  | cons opt rest ih =>
    intro st hfuel
    unfold dfs_options
    split_ifs with h₁ h₂ h₃
    · exact ih st hfuel
    · exact ⟨true, _, rfl, fun _ h => h⟩
    · have hex : g.node_exists opt.2 = true := by simpa using h₁
      obtain ⟨b, st', hr, hwhite⟩ := hrec opt.2 st hfuel hex h₃
      rw [hr]
      cases b with
      | true => exact ⟨true, st', rfl, hwhite⟩
      | false =>
        obtain ⟨b₂, st₂, hr₂, hwhite₂⟩ :=
          ih st' (le_trans (whiteCount_mono g hwhite) hfuel)
        exact ⟨b₂, st₂, hr₂, fun v h => hwhite v (hwhite₂ v h)⟩
    · exact ih st hfuel

theorem dfs_cycle_returns (g : StoryGraph) :
    ∀ (fuel : Nat) (id : String) (st : DfsState), whiteCount g st.color ≤ fuel →
      g.node_exists id = true → st.color id = 0 →
      ∃ b st', dfs_cycle g fuel id st = some (b, st') ∧ ∀ v, st'.color v = 0 → st.color v = 0 := by
  intro fuel
  induction fuel with
  | zero =>
    intro id st hfuel hex hw
    have := whiteCount_setGrey_lt g hex hw
    omega
  | succ fuel ih =>
    intro id st hfuel hex hw
    obtain ⟨node, hn⟩ := (node_exists_iff_get g id).mp hex
    have hfuel1 : whiteCount g (setColor st.color id 1) ≤ fuel := by
      have := whiteCount_setGrey_lt g hex hw
      omega
    have hwhite1 : ∀ v, setColor st.color id 1 v = 0 → st.color v = 0 := by
      intro v
      unfold setColor
      by_cases hv : v = id
      · simp [hv]
      · simp [hv]
    obtain ⟨b, st₂, hr, hwhite₂⟩ :=
      dfs_options_returns g fuel id ih node.options
        { st with color := setColor st.color id 1 } hfuel1
    unfold dfs_cycle
    simp only [hn, hr]
    cases b with
    | true => exact ⟨true, st₂, rfl, fun v h => hwhite1 v (hwhite₂ v h)⟩
    | false =>
      refine ⟨false, _, rfl, fun v h => hwhite1 v (hwhite₂ v ?_)⟩
      revert h
      show setColor st₂.color id 2 v = 0 → st₂.color v = 0
      unfold setColor
      by_cases hv : v = id
      · simp [hv]
      · simp [hv]

theorem dfs_roots_returns (g : StoryGraph) (fuel : Nat) :
    ∀ (kvs : List (String × SceneNode)) (acc : Bool × DfsState),
      whiteCount g acc.2.color ≤ fuel → (∀ kv ∈ kvs, g.node_exists kv.1 = true) →
      ∃ res, dfs_roots g fuel kvs acc = some res := by
  intro kvs
  induction kvs with
  | nil => intro acc _ _; exact ⟨acc, rfl⟩
  | cons kv rest ih =>
    intro acc hfuel hkeys
    obtain ⟨ok, st⟩ := acc
    have hkeys' : ∀ k ∈ rest, g.node_exists k.1 = true :=
      fun k hk => hkeys k (List.mem_cons_of_mem _ hk)
    unfold dfs_roots
    split_ifs with hw
    · obtain ⟨b, st', hr, hwhite⟩ :=
        dfs_cycle_returns g fuel kv.1 st hfuel (hkeys kv (List.mem_cons_self _ _)) hw
      rw [hr]
      have hfuel' : whiteCount g st'.color ≤ fuel := le_trans (whiteCount_mono g hwhite) hfuel
      cases b with
      | true => exact ih (false, st') hfuel' hkeys'
      | false => exact ih (ok, st') hfuel' hkeys'
    · exact ih (ok, st) hfuel hkeys'

theorem validate_graph_fuel_le (g : StoryGraph) {f f' : Nat} (hle : f ≤ f')
    (r : Bool × List Diag) (h : validate_graph_fuel f g = some r) :
    validate_graph_fuel f' g = some r := by
  unfold validate_graph_fuel at h ⊢
  dsimp only at h ⊢
  cases hroots : dfs_roots g f g.get_all_nodes
      ((check_edges g g.get_all_nodes (true, [])).1,
        { color := initColor, log := (check_edges g g.get_all_nodes (true, [])).2 }) with
  | none => simp [hroots] at h
  | some p =>
    rw [dfs_roots_fuel_le g hle _ _ _ hroots]
    rw [hroots] at h
    exact h

theorem dfs_options_white_only (g : StoryGraph)
    (r₁ r₂ : String → DfsState → Option (Bool × DfsState)) (id : String)
    (h : ∀ tgt st, g.node_exists tgt = true → st.color tgt = 0 → r₁ tgt st = r₂ tgt st) :
    ∀ (opts : List (String × String)) (st : DfsState),
      dfs_options g r₁ id opts st = dfs_options g r₂ id opts st := by
  intro opts
  induction opts with
  | nil => intro st; rfl
  | cons opt rest ih =>
    intro st
    unfold dfs_options
    split_ifs with h₁ h₂ h₃
    · exact ih st
    · rfl
    · rw [h opt.2 st (by simpa using h₁) h₃]
      simp only [ih]
    · exact ih st

theorem dfs_options_marks (g : StoryGraph)
    (recur : String → DfsState → Option (Bool × DfsState)) (id : String)
    (hrec : ∀ tgt st b st', recur tgt st = some (b, st') →
      ∀ v, st.color v ≠ 0 → st'.color v ≠ 0) :
    ∀ (opts : List (String × String)) (st : DfsState) (b : Bool) (st' : DfsState),
      dfs_options g recur id opts st = some (b, st') →
      ∀ v, st.color v ≠ 0 → st'.color v ≠ 0 := by
  intro opts
  induction opts with
  | nil =>
    intro st b st' h v hv
    simp only [dfs_options, Option.some.injEq, Prod.mk.injEq] at h
    rw [← h.2]
    exact hv
  | cons opt rest ih =>
    intro st b st' h v hv
    unfold dfs_options at h
    split_ifs at h with h₁ h₂ h₃
    · exact ih st b st' h v hv
    · simp only [Option.some.injEq, Prod.mk.injEq] at h
      rw [← h.2]
      exact hv
    · cases hr : recur opt.2 st with
      | none => simp [hr] at h
      | some p =>
        obtain ⟨b₁, st₁⟩ := p
        rw [hr] at h
        have hv₁ := hrec _ _ _ _ hr v hv
        cases b₁ with
        | true =>
          simp only [Option.some.injEq, Prod.mk.injEq] at h
          rw [← h.2]
          exact hv₁
        | false => exact ih st₁ b st' h v hv₁
    · exact ih st b st' h v hv

theorem dfs_cycle_marks (g : StoryGraph) :
    ∀ (fuel : Nat) (id : String) (st : DfsState) (b : Bool) (st' : DfsState),
      dfs_cycle g fuel id st = some (b, st') →
      st'.color id ≠ 0 ∧ ∀ v, st.color v ≠ 0 → st'.color v ≠ 0 := by
  intro fuel
  induction fuel with
  | zero => intro id st b st' h; simp [dfs_cycle] at h
  | succ fuel ih =>
    intro id st b st' h
    have hset : ∀ v, (v = id ∨ st.color v ≠ 0) → setColor st.color id 1 v ≠ 0 := by
      intro v hv
      unfold setColor
      by_cases hvi : v = id
      · simp [hvi]
      · rcases hv with hv | hv
        · exact absurd hv hvi
        · simpa [hvi] using hv
    have key : ∀ v, (v = id ∨ st.color v ≠ 0) → st'.color v ≠ 0 := by
      intro v hv
      unfold dfs_cycle at h
      cases hn : g.get_node_ptr id with
      | none =>
        simp only [hn, Option.some.injEq, Prod.mk.injEq] at h
        rw [← h.2]
        exact hset v hv
      | some node =>
        simp only [hn] at h
        cases hl : dfs_options g (dfs_cycle g fuel) id node.options
            { st with color := setColor st.color id 1 } with
        | none => simp [hl] at h
        | some p =>
          obtain ⟨b₂, st₂⟩ := p
          rw [hl] at h
          have h₂ : st₂.color v ≠ 0 :=
            dfs_options_marks g _ id (fun tgt s b s' hr => (ih tgt s b s' hr).2)
              node.options _ b₂ st₂ hl v (hset v hv)
          cases b₂ with
          | true =>
            simp only [Option.some.injEq, Prod.mk.injEq] at h
            rw [← h.2]
            exact h₂
          | false =>
            simp only [Option.some.injEq, Prod.mk.injEq] at h
            rw [← h.2]
            show setColor st₂.color id 2 v ≠ 0
            unfold setColor
            by_cases hvi : v = id
            · simp [hvi]
            · simpa [hvi] using h₂
    exact ⟨key id (Or.inl rfl), fun v hv => key v (Or.inr hv)⟩

/-- Claim C14. The function `validate_graph` terminates on every graph: a
recursion depth of `get_node_count` is enough for `dfs_cycle` (any fuel from
`get_node_count` on gives the one result).  The recursive call is made on
white keys only, and a node that `dfs_cycle` has entered is never white again,
so no node is entered twice. -/
theorem validate_graph_terminates (g : StoryGraph) :
    (∃ r, validate_graph g = some r ∧
      ∀ fuel, g.get_node_count ≤ fuel → validate_graph_fuel fuel g = some r) ∧
    (∀ (r₁ r₂ : String → DfsState → Option (Bool × DfsState)) (id : String)
      (opts : List (String × String)) (st : DfsState),
      (∀ tgt s, g.node_exists tgt = true → s.color tgt = 0 → r₁ tgt s = r₂ tgt s) →
      dfs_options g r₁ id opts st = dfs_options g r₂ id opts st) ∧
    (∀ (fuel : Nat) (id : String) (st : DfsState) (b : Bool) (st' : DfsState),
      dfs_cycle g fuel id st = some (b, st') →
      st'.color id ≠ 0 ∧ ∀ v, st.color v ≠ 0 → st'.color v ≠ 0) := by
  refine ⟨?_, fun r₁ r₂ id opts st h => dfs_options_white_only g r₁ r₂ id h opts st,
    dfs_cycle_marks g⟩
  have hret : ∃ r, validate_graph_fuel g.get_node_count g = some r := by
    obtain ⟨res, hres⟩ := dfs_roots_returns g g.get_node_count g.get_all_nodes
      ((check_edges g g.get_all_nodes (true, [])).1,
        { color := initColor, log := (check_edges g g.get_all_nodes (true, [])).2 })
      (le_of_eq (whiteCount_init g)) (key_exists g)
    unfold validate_graph_fuel
    dsimp only
    rw [hres]
    exact ⟨_, rfl⟩
  obtain ⟨r, hr⟩ := hret
  exact ⟨r, validate_graph_fuel_le g (Nat.le_succ _) r hr,
    fun fuel hf => validate_graph_fuel_le g hf r hr⟩

/-- The graph `scenarioB` is cyclic, and a recursion depth of two, its node
count, already gives the result of `validate_graph`. -/
theorem validate_graph_terminates_witness :
    validate_graph_fuel 2 scenarioB = some (false, [Diag.cycle "B" "A"]) ∧
      scenarioB.get_node_count = 2 ∧
      ∃ r, validate_graph scenarioB = some r ∧
        ∀ fuel, scenarioB.get_node_count ≤ fuel → validate_graph_fuel fuel scenarioB = some r :=
  ⟨by decide, by decide, (validate_graph_terminates scenarioB).1⟩

/-! ## Invariants of the node map -/

theorem mapInsert_mem {k : String} {v : SceneNode} :
    ∀ {l : List (String × SceneNode)} {kv : String × SceneNode},
      kv ∈ mapInsert k v l → kv = (k, v) ∨ kv ∈ l := by
  intro l
  induction l with
  | nil =>
    intro kv h
    simp only [mapInsert, List.mem_singleton] at h
    exact Or.inl h
  | cons hd tl ih =>
    intro kv h
    obtain ⟨k', v'⟩ := hd
    unfold mapInsert at h
    split_ifs at h with h₁ h₂
    · rcases List.mem_cons.mp h with h | h
      · exact Or.inl h
      · exact Or.inr h
    · rcases List.mem_cons.mp h with h | h
      · exact Or.inl h
      · exact Or.inr (List.mem_cons_of_mem _ h)
    · rcases List.mem_cons.mp h with h | h
      · exact Or.inr (h ▸ List.mem_cons_self _ _)
      · rcases ih h with h | h
        · exact Or.inl h
        · exact Or.inr (List.mem_cons_of_mem _ h)

theorem mapInsert_sorted (k : String) (v : SceneNode) :
    ∀ l : List (String × SceneNode), l.Pairwise (fun a b => keyLt a.1 b.1) →
      (mapInsert k v l).Pairwise (fun a b => keyLt a.1 b.1) := by
  intro l
  induction l with
  | nil => intro _; simp [mapInsert]
  | cons hd tl ih =>
    intro h
    obtain ⟨k', v'⟩ := hd
    obtain ⟨hhead, htail⟩ := List.pairwise_cons.mp h
    rcases keyLt_trichotomy k k' with hlt | rfl | hgt
    · rw [mapInsert_cons_lt hlt]
      refine List.pairwise_cons.mpr ⟨?_, h⟩
      intro a ha
      rcases List.mem_cons.mp ha with rfl | ha'
      · exact hlt
      · exact keyLt_trans hlt (hhead a ha')
    · rw [mapInsert_cons_eq]
      exact List.pairwise_cons.mpr ⟨hhead, htail⟩
    · rw [mapInsert_cons_gt hgt]
      refine List.pairwise_cons.mpr ⟨?_, ih htail⟩
      intro a ha
      rcases mapInsert_mem ha with rfl | ha'
      · exact hgt
      · exact hhead a ha'

theorem mapFind_none_of_lt {k : String} {l : List (String × SceneNode)}
    (h : ∀ a ∈ l, keyLt k a.1) : mapFind k l = none := by
  cases hm : mapFind k l with
  | none => rfl
  | some n =>
    have hmem := mapFind_mem hm
    exact absurd (h _ hmem) (keyLt_irrefl k)

theorem mapInsert_length (k : String) (v : SceneNode) :
    ∀ l : List (String × SceneNode), l.Pairwise (fun a b => keyLt a.1 b.1) →
      (mapInsert k v l).length =
        if (mapFind k l).isSome then l.length else l.length + 1 := by
  intro l
  induction l with
  | nil => intro _; simp [mapInsert, mapFind]
  | cons hd tl ih =>
    intro h
    obtain ⟨k', v'⟩ := hd
    obtain ⟨hhead, htail⟩ := List.pairwise_cons.mp h
    rcases keyLt_trichotomy k k' with hlt | rfl | hgt
    · rw [mapInsert_cons_lt hlt]
      have hnone : mapFind k ((k', v') :: tl) = none := by
        apply mapFind_none_of_lt
        intro a ha
        rcases List.mem_cons.mp ha with rfl | ha'
        · exact hlt
        · exact keyLt_trans hlt (hhead a ha')
      simp [hnone]
    · rw [mapInsert_cons_eq]
      simp [mapFind]
    · rw [mapInsert_cons_gt hgt]
      have hne : ¬ k' = k := fun e => keyLt_irrefl k (e ▸ hgt)
      have hfind : mapFind k ((k', v') :: tl) = mapFind k tl := by simp [mapFind, hne]
      rw [hfind, List.length_cons, ih htail]
      split_ifs <;> simp

theorem keysSorted_empty : KeysSorted StoryGraph.empty := by
  simp [KeysSorted, StoryGraph.empty]

theorem keysSorted_add_node {g : StoryGraph} (h : KeysSorted g) (n : SceneNode) :
    KeysSorted (g.add_node n).1 :=
  mapInsert_sorted n.id n g.nodes h

theorem keysSorted_add_nodes (l : List SceneNode) :
    ∀ g : StoryGraph, KeysSorted g → KeysSorted (add_nodes g l) := by
  induction l with
  | nil => intro g h; exact h
  | cons n rest ih => intro g h; exact ih _ (keysSorted_add_node h n)

theorem node_exists_add_node (g : StoryGraph) (n : SceneNode) (x : String) :
    (g.add_node n).1.node_exists x = true ↔ (x = n.id ∨ g.node_exists x = true) := by
  unfold StoryGraph.node_exists StoryGraph.add_node
  by_cases hx : x = n.id
  · subst hx
    simp [mapFind_mapInsert_self]
  · simp [mapFind_mapInsert_ne hx, hx]

theorem node_exists_add_nodes (l : List SceneNode) :
    ∀ (g : StoryGraph) (x : String),
      (add_nodes g l).node_exists x = true ↔
        (g.node_exists x = true ∨ x ∈ l.map SceneNode.id) := by
  induction l with
  | nil => intro g x; simp [add_nodes]
  | cons n rest ih =>
    intro g x
    have h := ih (g.add_node n).1 x
    rw [node_exists_add_node] at h
    simp only [add_nodes, List.foldl_cons, List.map_cons, List.mem_cons] at h ⊢
    rw [h]
    tauto

theorem keys_nodup {g : StoryGraph} (h : KeysSorted g) : (g.nodes.map Prod.fst).Nodup := by
  unfold List.Nodup
  rw [List.pairwise_map]
  refine List.Pairwise.imp ?_ h
  intro a b hab e
  rw [e] at hab
  exact keyLt_irrefl _ hab

theorem count_add_nodes_empty (l : List SceneNode) :
    (add_nodes StoryGraph.empty l).get_node_count = (l.map SceneNode.id).dedup.length := by
  have hs := keysSorted_add_nodes l StoryGraph.empty keysSorted_empty
  have hperm : ((add_nodes StoryGraph.empty l).nodes.map Prod.fst).Perm
      (l.map SceneNode.id).dedup := by
    rw [List.perm_ext_iff_of_nodup (keys_nodup hs) (List.nodup_dedup _)]
    intro x
    rw [List.mem_dedup]
    have h₁ := node_exists_add_nodes l StoryGraph.empty x
    have h₂ : StoryGraph.empty.node_exists x = false := rfl
    rw [h₂] at h₁
    simp only [Bool.false_eq_true, false_or] at h₁
    rw [← h₁]
    unfold StoryGraph.node_exists
    rw [mapFind_isSome_iff]
    constructor
    · intro hx
      obtain ⟨kv, hkv, hk⟩ := List.mem_map.mp hx
      exact ⟨kv, hkv, hk⟩
    · rintro ⟨kv, hkv, hk⟩
      exact List.mem_map.mpr ⟨kv, hkv, hk⟩
  have := hperm.length_eq
  simpa [StoryGraph.get_node_count] using this

/-- Claim C15. The method `get_node_count` counts distinct ids: on a node map
in key order, `add_node(n)` adds exactly one to the count when `n.id` was not
a key and leaves the count unchanged when it was; the fresh graph has count
0; after any sequence of `add_node` calls on the fresh graph the map is in key
order and the count is the number of distinct ids inserted. -/
theorem get_node_count_counts_ids :
    (∀ (g : StoryGraph) (n : SceneNode), KeysSorted g →
      (g.add_node n).1.get_node_count =
        if g.node_exists n.id then g.get_node_count else g.get_node_count + 1) ∧
    StoryGraph.empty.get_node_count = 0 ∧
    (∀ l : List SceneNode, KeysSorted (add_nodes StoryGraph.empty l) ∧
      (add_nodes StoryGraph.empty l).get_node_count = (l.map SceneNode.id).dedup.length) :=
  ⟨fun g n h => mapInsert_length n.id n g.nodes h, rfl,
    fun l => ⟨keysSorted_add_nodes l StoryGraph.empty keysSorted_empty, count_add_nodes_empty l⟩⟩

/-- Counting on concrete insertions: `A` then `A` again gives count 1, `A`
then `B` gives count 2, and the first step from the fresh graph adds one. -/
theorem get_node_count_counts_ids_witness :
    (add_nodes StoryGraph.empty [firstA, secondA]).get_node_count = 1 ∧
      (add_nodes StoryGraph.empty [nodeA, nodeB]).get_node_count = 2 ∧
      (StoryGraph.empty.add_node firstA).1.get_node_count =
        (if StoryGraph.empty.node_exists firstA.id then StoryGraph.empty.get_node_count
          else StoryGraph.empty.get_node_count + 1) :=
  ⟨by decide, by decide,
    get_node_count_counts_ids.1 StoryGraph.empty firstA keysSorted_empty⟩

theorem coherent_apply {g : StoryGraph} (h : ∀ kv ∈ g.nodes, kv.2.id = kv.1) (op : GraphOp) :
    ∀ kv ∈ (GraphOp.apply g op).nodes, kv.2.id = kv.1 := by
  cases op with
  | add node =>
    intro kv hkv
    rcases mapInsert_mem hkv with rfl | hkv'
    · rfl
    · exact h kv hkv'
  | setStart id => exact h

theorem coherent_foldl (ops : List GraphOp) :
    ∀ g : StoryGraph, (∀ kv ∈ g.nodes, kv.2.id = kv.1) →
      ∀ kv ∈ (ops.foldl GraphOp.apply g).nodes, kv.2.id = kv.1 := by
  induction ops with
  | nil => intro g h; exact h
  | cons op rest ih => intro g h; exact ih _ (coherent_apply h op)

/-- Claim C18. Key and id agree in every graph reached from the fresh graph by
`add_node` and `set_start_node` calls: each entry `(k, node)` of the node map
has `node.id = k`, so a lookup under `id` returns a node whose `id` field is
`id`, and the source id printed for a dangling edge is the key of its entry. -/
theorem key_id_coherence (ops : List GraphOp) :
    (∀ kv ∈ (runOps ops).nodes, kv.2.id = kv.1) ∧
    (∀ id node, (runOps ops).get_node_ptr id = some node → node.id = id) ∧
    danglingOf (runOps ops) =
      (runOps ops).nodes.flatMap (fun kv => kv.2.options.filterMap (fun opt =>
        if (runOps ops).node_exists opt.2 then none else some (Diag.dangling kv.1 opt.2))) := by
  have hco : ∀ kv ∈ (runOps ops).nodes, kv.2.id = kv.1 :=
    coherent_foldl ops StoryGraph.empty (fun kv h => absurd h (List.not_mem_nil kv))
  refine ⟨hco, fun id node h => hco (id, node) (mapFind_mem h), ?_⟩
  unfold danglingOf danglingOfNode
  apply List.flatMap_congr
  intro kv hkv
  rw [hco kv hkv]

/-- The calls `add_node(A)`, `set_start_node(B)`, `add_node(B)`: both entries
have their id as key. -/
theorem key_id_coherence_witness :
    (runOps [GraphOp.add nodeA, GraphOp.setStart "B", GraphOp.add nodeB]).nodes =
        [("A", nodeA), ("B", nodeB)] ∧
      ∀ kv ∈ (runOps [GraphOp.add nodeA, GraphOp.setStart "B", GraphOp.add nodeB]).nodes,
        kv.2.id = kv.1 :=
  ⟨by decide,
    (key_id_coherence [GraphOp.add nodeA, GraphOp.setStart "B", GraphOp.add nodeB]).1⟩

theorem add_nodes_entries (l : List SceneNode) :
    ∀ (g : StoryGraph), ∀ kv ∈ (add_nodes g l).nodes,
      kv ∈ g.nodes ∨ ∃ n ∈ l, kv = (n.id, n) := by
  induction l with
  | nil => intro g kv h; exact Or.inl h
  | cons n rest ih =>
    intro g kv h
    rcases ih (g.add_node n).1 kv h with h₁ | ⟨m, hm, hkv⟩
    · rcases mapInsert_mem h₁ with rfl | h₂
      · exact Or.inr ⟨n, List.mem_cons_self _ _, rfl⟩
      · exact Or.inl h₂
    · exact Or.inr ⟨m, List.mem_cons_of_mem _ hm, hkv⟩

/-- Claim C19, as the code has it. The method `add_node` stores a node under
whatever id it carries: every entry of a graph built from the fresh graph by
`add_node` calls is `(n.id, n)` for an inserted node `n`, so all keys and
stored ids are non-empty when every inserted node has a non-empty id. -/
theorem stored_ids_are_inserted_ids (l : List SceneNode) (h : ∀ n ∈ l, n.id ≠ "") :
    (∀ kv ∈ (add_nodes StoryGraph.empty l).nodes, ∃ n ∈ l, kv = (n.id, n)) ∧
    (∀ kv ∈ (add_nodes StoryGraph.empty l).nodes, kv.1 ≠ "" ∧ kv.2.id ≠ "") := by
  have hent : ∀ kv ∈ (add_nodes StoryGraph.empty l).nodes, ∃ n ∈ l, kv = (n.id, n) := by
    intro kv hkv
    rcases add_nodes_entries l StoryGraph.empty kv hkv with h₁ | h₁
    · exact absurd h₁ (List.not_mem_nil kv)
    · exact h₁
  refine ⟨hent, ?_⟩
  intro kv hkv
  obtain ⟨n, hn, rfl⟩ := hent kv hkv
  exact ⟨h n hn, h n hn⟩

/-- The two nodes of scenario A have non-empty ids, and so have the entries of
the graph built from them. -/
theorem stored_ids_are_inserted_ids_witness :
    (∀ n ∈ [nodeA, nodeB], n.id ≠ "") ∧
      ∀ kv ∈ (add_nodes StoryGraph.empty [nodeA, nodeB]).nodes, kv.1 ≠ "" ∧ kv.2.id ≠ "" :=
  have h : ∀ n ∈ [nodeA, nodeB], n.id ≠ "" := by decide
  ⟨h, (stored_ids_are_inserted_ids [nodeA, nodeB] h).2⟩

/-- Claim C19 as stated fails. A node made by the default constructor has the
empty id, and `add_node` stores it under the empty key without a warning. -/
theorem add_node_accepts_empty_id :
    SceneNode.mk0.id = "" ∧
      (add_nodes StoryGraph.empty [SceneNode.mk0]).nodes = [("", SceneNode.mk0)] ∧
      (StoryGraph.empty.add_node SceneNode.mk0).2 = [] ∧
      (add_nodes StoryGraph.empty [SceneNode.mk0]).node_exists "" = true ∧
      ¬ ∀ kv ∈ (add_nodes StoryGraph.empty [SceneNode.mk0]).nodes, kv.1 ≠ "" := by
  refine ⟨rfl, by decide, by decide, by decide, ?_⟩
  intro h
  exact h ("", SceneNode.mk0) (by decide) rfl

/-! ## The built story -/

/-- Claim C16. The graph assembled by `BuildGraph` on the fresh global graph is
a well-formed DAG: 12 nodes, start id `START` which is a key, every option
target is a key, the option edges form no cycle, `validate_graph` returns
`true` with no diagnostic, and no duplicate-id warning is written during
assembly. -/
theorem BuildGraph_is_dag :
    (BuildGraph StoryGraph.empty).1.get_node_count = 12 ∧
      (BuildGraph StoryGraph.empty).1.get_start_node_id = "START" ∧
      (BuildGraph StoryGraph.empty).1.node_exists "START" = true ∧
      TargetsExist (BuildGraph StoryGraph.empty).1 ∧
      Acyclic (BuildGraph StoryGraph.empty).1 ∧
      validate_graph (BuildGraph StoryGraph.empty).1 = some (true, []) ∧
      (BuildGraph StoryGraph.empty).2 = [] :=
  ⟨by decide, by decide, by decide, by unfold TargetsExist; decide,
    acyclic_of_rank _ storyRank (by decide), by decide, by decide⟩

/-- Claim C17 fails on the code. The built story has six nodes without options
(the five `FINAL_*` nodes and `BOSQUE_CAMINO_ALTERNATIVO`), each with
`is_ending() = true`, while `ShowEndScreen` prints the constant 5 after
`Finales disponibles:`. -/
theorem ShowEndScreen_finales_mismatch :
    endingCount (BuildGraph StoryGraph.empty).1 = 6 ∧
      (ShowEndScreen (BuildGraph StoryGraph.empty).1).2 = 5 ∧
      (ShowEndScreen (BuildGraph StoryGraph.empty).1).1 = 12 ∧
      ((BuildGraph StoryGraph.empty).1.nodes.filter (fun kv => kv.2.is_ending)).map Prod.fst =
        ["BOSQUE_CAMINO_ALTERNATIVO", "FINAL_ALONE", "FINAL_ERMITANO", "FINAL_ESCAPE",
          "FINAL_MAPA", "FINAL_TESORO"] ∧
      ((BuildGraph StoryGraph.empty).1.get_node_ptr "BOSQUE_CAMINO_ALTERNATIVO").map
        SceneNode.is_ending = some true :=
  ⟨by decide, by decide, by decide, by decide, by decide⟩

/-! ## The range check on choices -/

theorem session_step_invalid (g : StoryGraph) (provider : ChoiceProvider) (cur : String)
    (asked : Nat) (node : SceneNode) (h : g.get_node_ptr cur = some node)
    (he : node.is_ending = false)
    (hr : ¬ (0 ≤ provider asked (node.options.length : Int) ∧
      provider asked (node.options.length : Int) < (node.options.length : Int))) :
    session_step g provider cur asked =
      (some node, asked + 1, StepResult.stop (SessionEnd.invalidOption cur)) := by
  simp [session_step, h, he, hr]

/-- Claim C20. At an existing node with options, whatever integer the choice
provider returns: an answer `c` with `0 <= c < options.size()` selects the
stored option `options[c]`, and any other answer ends the session with the
invalid-option error at the same node, the node rendered once, no transition
made and nothing rendered afterwards. -/
theorem session_choice_range_checked (g : StoryGraph) (provider : ChoiceProvider)
    (cur : String) (asked : Nat) (node : SceneNode) (h : g.get_node_ptr cur = some node)
    (he : node.is_ending = false) :
    ((0 ≤ provider asked (node.options.length : Int) ∧
        provider asked (node.options.length : Int) < (node.options.length : Int)) →
      ∃ opt, node.options.get? (provider asked (node.options.length : Int)).toNat = some opt ∧
        session_step g provider cur asked = (some node, asked + 1, StepResult.next opt.2)) ∧
    (¬ (0 ≤ provider asked (node.options.length : Int) ∧
        provider asked (node.options.length : Int) < (node.options.length : Int)) →
      session_step g provider cur asked =
          (some node, asked + 1, StepResult.stop (SessionEnd.invalidOption cur)) ∧
        ∀ fuel rendered trans,
          session_loop g provider (fuel + 1) cur rendered asked trans =
            some { rendered := rendered ++ [node], asked := asked + 1, transitions := trans,
                   outcome := SessionEnd.invalidOption cur }) := by
  refine ⟨fun hr => session_step_choice g provider cur asked node h he hr, fun hr => ?_⟩
  have hstep := session_step_invalid g provider cur asked node h he hr
  refine ⟨hstep, fun fuel rendered trans => ?_⟩
  unfold session_loop
  rw [hstep]
  rfl

/-- Scenario A with a provider that answers 7 and with one that answers -1: the
session renders `A`, asks once and stops with the invalid-option error at `A`
without a transition. -/
theorem session_choice_range_checked_witness :
    RunGameDemo 5 scenarioA (fun _ _ => 7) =
        some { rendered := [nodeA], asked := 1, transitions := 0,
               outcome := SessionEnd.invalidOption "A" } ∧
      RunGameDemo 5 scenarioA (fun _ _ => -1) =
        some { rendered := [nodeA], asked := 1, transitions := 0,
               outcome := SessionEnd.invalidOption "A" } ∧
      session_step scenarioA (fun _ _ => 7) "A" 0 =
        (some nodeA, 0 + 1, StepResult.stop (SessionEnd.invalidOption "A")) :=
  ⟨by decide, by decide,
    ((session_choice_range_checked scenarioA (fun _ _ => 7) "A" 0 nodeA (by decide)
      (by decide)).2 (by decide)).1⟩

end StoryEngine
